import Mathlib

/-!
# anylink, `server/sessdata/online.go`: the online-session listing

A shallow embedding of `GetOnlineSess`, `getLocalUserInfo` and the `Onlines`
sort interface, followed by theorems about them.

Conventions of the embedding.

* Go strings are Lean `String`s (texts of valid UTF-8); on such texts the
  byte-wise `strings.Contains` and the rune-wise one below agree.
* `net.IP` is a `[]byte`; it is a `List Nat` here, every element a byte
  (below 256).  A nil slice and an empty slice are both `[]`.
* The registry `sessions` is a Go map; a `List Session` stands for the order in
  which one `range sessions` enumerates it.  The `usernames` slice of
  `getLocalUserInfo` is taken in the order of first occurrence, and the store
  answers as a function of the slice it is sent.
* Locks do not change the values computed and are left out of the functions
  `getLocalUserInfo` and `GetOnlineSess`; the functions `getLocalUserInfoRun`
  and `GetOnlineSessRun` are the same code with its effects: the lock
  operations and store lookups in order, and a fault on a nil dereference.
-/

namespace Sessdata

/-! ## Go standard library: `strings`, `unicode`, `bytes`, `net` -/

/-- Go `unicode.IsSpace`: the Latin-1 cases of the switch, then the
`White_Space` range table. -/
def isSpace (c : Char) : Bool :=
  let r := c.toNat
  if r ≤ 0xFF then
    r == 0x09 || r == 0x0A || r == 0x0B || r == 0x0C || r == 0x0D || r == 0x20
      || r == 0x85 || r == 0xA0
  else
    r == 0x1680 || (0x2000 ≤ r && r ≤ 0x200A) || r == 0x2028 || r == 0x2029
      || r == 0x202F || r == 0x205F || r == 0x3000

/-- Go `strings.TrimSpace`: the text without its leading and trailing white
space. -/
def TrimSpace (s : String) : String :=
  String.mk ((s.data.dropWhile isSpace).reverse.dropWhile isSpace).reverse

/-- Go `strings.HasPrefix` on rune lists. -/
def hasPrefix : List Char → List Char → Bool
  | _, [] => true
  | [], _ :: _ => false
  | c :: s, d :: p => c == d && hasPrefix s p

/-- Go `strings.Index(s, substr) >= 0` on rune lists: `substr` starts at some
position of `s`. -/
def containsChars : List Char → List Char → Bool
  | [], sub => hasPrefix [] sub
  | c :: s, sub => hasPrefix (c :: s) sub || containsChars s sub

/-- Go `strings.Contains(s, substr)`. -/
def Contains (s substr : String) : Bool :=
  containsChars s.data substr.data

/-- Go `bytes.Compare`: -1, 0 or 1 by lexicographic comparison; a proper prefix
is smaller. -/
def bytesCompare : List Nat → List Nat → Int
  | [], [] => 0
  | [], _ :: _ => -1
  | _ :: _, [] => 1
  | a :: as, b :: bs =>
    if a < b then -1 else if b < a then 1 else bytesCompare as bs

/-- The digit table `"0123456789abcdef"` of `net` and `net/netip`. -/
def hexDigit (n : Nat) : Char :=
  "0123456789abcdef".data.getD n '0'

/-- Go `net.hexString`: two lower-case hexadecimal digits for each byte. -/
def hexString (b : List Nat) : List Char :=
  b.flatMap (fun tn => [hexDigit (tn / 16), hexDigit (tn % 16)])

/-- Go `netip.appendDecimal`: a byte in decimal, no leading zero. -/
def appendDecimal (x : Nat) : List Char :=
  (if x ≥ 100 then [hexDigit (x / 100)] else [])
    ++ (if x ≥ 10 then [hexDigit (x / 10 % 10)] else [])
    ++ [hexDigit (x % 10)]

/-- Go `netip.appendHex`: a 16-bit group in hexadecimal, no leading zero. -/
def appendHex (x : Nat) : List Char :=
  (if x ≥ 0x1000 then [hexDigit (x / 0x1000)] else [])
    ++ (if x ≥ 0x100 then [hexDigit (x / 0x100 % 16)] else [])
    ++ (if x ≥ 0x10 then [hexDigit (x / 0x10 % 16)] else [])
    ++ [hexDigit (x % 16)]

/-- Go `netip.Addr.string4`: dotted decimal of four bytes. -/
def string4 (p : List Nat) : List Char :=
  appendDecimal (p.getD 0 0) ++ ['.'] ++ appendDecimal (p.getD 1 0) ++ ['.']
    ++ appendDecimal (p.getD 2 0) ++ ['.'] ++ appendDecimal (p.getD 3 0)

/-- Go `netip.Addr.v6u16`: the `i`-th 16-bit group of a 16-byte address. -/
def v6u16 (ip : List Nat) (i : Nat) : Nat :=
  ip.getD (2 * i) 0 * 256 + ip.getD (2 * i + 1) 0

/-- The inner loop of the zero-run search in `netip.Addr.appendTo6`:
`for j < 8 && ip.v6u16(j) == 0 { j++ }`. -/
def zeroRunEnd (ip : List Nat) : Nat → Nat → Nat
  | 0, j => j
  | fuel + 1, j => if j < 8 && v6u16 ip j == 0 then zeroRunEnd ip fuel (j + 1) else j

/-- The first loop of `netip.Addr.appendTo6`: the first longest run of at
least two zero groups, as `(zeroStart, zeroEnd)`; `(255, 255)` when there is
none. -/
def zeroRun (ip : List Nat) : Nat × Nat :=
  (List.range 8).foldl
    (fun (z : Nat × Nat) i =>
      let j := zeroRunEnd ip 8 i
      let l := j - i
      if l ≥ 2 && l > z.2 - z.1 then (i, j) else z)
    (255, 255)

/-- The second loop of `netip.Addr.appendTo6`, from group `i` on. -/
def appendGroups (ip : List Nat) (zeroStart zeroEnd : Nat) : Nat → Nat → List Char
  | 0, _ => []
  | fuel + 1, i =>
    if i < 8 then
      if i == zeroStart then
        if zeroEnd ≥ 8 then [':', ':']
        else [':', ':'] ++ appendHex (v6u16 ip zeroEnd)
          ++ appendGroups ip zeroStart zeroEnd fuel (zeroEnd + 1)
      else
        (if i > 0 then [':'] else []) ++ appendHex (v6u16 ip i)
          ++ appendGroups ip zeroStart zeroEnd fuel (i + 1)
    else []

/-- Go `netip.Addr.string6` of an address without zone. -/
def string6 (ip : List Nat) : List Char :=
  let z := zeroRun ip
  appendGroups ip z.1 z.2 8 0

/-- Go `net.IP.To4`: the four bytes of an IPv4 address, also when it is written
as an IPv4-mapped 16-byte address; `[]` (nil) otherwise. -/
def To4 (ip : List Nat) : List Nat :=
  if ip.length == 4 then ip
  else if ip.length == 16 && (ip.take 10).all (· == 0) && ip.getD 10 0 == 0xff
      && ip.getD 11 0 == 0xff then ip.drop 12
  else []

/-- Go `net.IP.String`. -/
def ipString (ip : List Nat) : String :=
  if ip.length == 0 then "<nil>"
  else if ip.length != 4 && ip.length != 16 then String.mk ('?' :: hexString ip)
  else if (To4 ip).length == 4 then String.mk (string4 (To4 ip))
  else String.mk (string6 ip)

/-! ## Data model -/

/-- Modelled from the spec: `DtlsSession`, the datagram sub-session handle of a
connection, declared outside `online.go`; only its presence is read. -/
structure DtlsSession where
  deriving DecidableEq, Repr

/-- Modelled from the spec: `ConnSession`, the connection binding, declared
outside `online.go`; the fields are the ones `GetOnlineSess` reads.  The four
counters hold the value their `Load()` returns. -/
structure ConnSession where
  IpAddr : List Nat
  RemoteAddr : String
  IfName : String
  Mtu : Int
  Client : String
  BandwidthUpPeriod : Nat
  BandwidthDownPeriod : Nat
  BandwidthUpAll : Nat
  BandwidthDownAll : Nat
  dSess : Option DtlsSession
  deriving DecidableEq, Repr

/-- Go `&ConnSession{}`: every field at its zero value. -/
def ConnSession.zero : ConnSession :=
  { IpAddr := [], RemoteAddr := "", IfName := "", Mtu := 0, Client := "",
    BandwidthUpPeriod := 0, BandwidthDownPeriod := 0, BandwidthUpAll := 0,
    BandwidthDownAll := 0, dSess := none }

/-- Modelled from the spec: `ConnSession.GetDtlsSession`, declared outside
`online.go`: the optional secondary datagram sub-session handle. -/
def ConnSession.GetDtlsSession (cs : ConnSession) : Option DtlsSession :=
  cs.dSess

/-- Modelled from the spec: `Session`, declared outside `online.go`; the fields
are the ones `online.go` reads.  `LastLogin` is a `time.Time`, an instant. -/
structure Session where
  Token : String
  Username : String
  Group : String
  MacAddr : String
  UniqueMac : Bool
  IsActive : Bool
  AuthType : String
  LastLogin : Int
  CSess : Option ConnSession
  deriving DecidableEq, Repr

/-- The struct `Online`. -/
structure Online where
  Token : String
  Username : String
  Nickname : String
  Email : String
  Group : String
  MacAddr : String
  UniqueMac : Bool
  Ip : List Nat
  RemoteAddr : String
  TransportProtocol : String
  TunName : String
  Mtu : Int
  Client : String
  BandwidthUp : String
  BandwidthDown : String
  BandwidthUpAll : String
  BandwidthDownAll : String
  LastLogin : Int
  deriving DecidableEq, Repr

/-- The struct `UserExtraInfo`. -/
structure UserExtraInfo where
  Nickname : String
  Email : String
  deriving DecidableEq, Repr

/-- The columns of `dbdata.User` that `getLocalUserInfo` reads. -/
structure User where
  Username : String
  Nickname : String
  Email : String
  deriving DecidableEq, Repr

/-- The persistent store as `getLocalUserInfo` sees it: the query
`GetXdb().In("username", usernames).Cols(...).Find(&users)` either fails with
an error or yields rows. -/
abbrev Store := List String → Except String (List User)

/-- A Go `map[string]UserExtraInfo` as an association list with distinct keys. -/
abbrev UserInfoMap := List (String × UserExtraInfo)

/-- Go `m[k]` on a `map[string]UserExtraInfo`: the zero value when `k` is not a
key. -/
def mapGet (m : UserInfoMap) (k : String) : UserExtraInfo :=
  (m.lookup k).getD { Nickname := "", Email := "" }

/-- Go `m[k] = v`: a former entry for `k` is replaced. -/
def mapSet (m : UserInfoMap) (k : String) (v : UserExtraInfo) : UserInfoMap :=
  (k, v) :: m.filter (fun p => p.1 != k)

/-- Go `set[k] = true` on a `map[string]bool` used as a set, as the list of its
keys. -/
def setAdd (set : List String) (k : String) : List String :=
  if k ∈ set then set else set ++ [k]

/-! ## The sort interface of `Onlines` -/

/-- `Onlines.Less`, on the two records at positions `i` and `j`. -/
def Less (a b : Online) : Bool :=
  bytesCompare a.Ip b.Ip < 0

/-- The inner loop of Go `insertionSort`,
`for j := i; j > a && data.Less(j, j-1); j-- { data.Swap(j, j-1) }`:
the record `x` at position `i` moves left past every record it is `Less` than.
The sorted prefix left of `i` is given last record first, and so is the
result. -/
def insertLeft (x : Online) : List Online → List Online
  | [] => [x]
  | y :: ys => if Less x y then y :: insertLeft x ys else x :: y :: ys

/-- Go `insertionSort(data, 0, n)`:
`for i := 1; i < n; i++ { inner loop }`. -/
def insertionSort (datas : List Online) : List Online :=
  (datas.foldl (fun sortedPrefix x => insertLeft x sortedPrefix) []).reverse

/-- Go `sort.Sort(&datas)`.  `sort.Sort` runs `pdqsort`, which on at most 12
records is `insertionSort`; on longer inputs it yields some other arrangement
that is sorted by `Less`, the same up to the order of records with equal
`Ip`.  What is proved of a listing of any length rests on `sortSort_sorted` and
`sortSort_perm` alone, which hold of `pdqsort` as well; the examples in which
records have equal `Ip` have two records. -/
def sortSort (datas : List Online) : List Online :=
  insertionSort datas

/-! ## `getLocalUserInfo` and `GetOnlineSess` -/

/-- The first loop of `getLocalUserInfo`: the `usernameSet` of the sessions
that are active and of `AuthType` `"local"`. -/
def usernameSet (sessions : List Session) : List String :=
  sessions.foldl
    (fun set v => if v.IsActive && v.AuthType == "local" then setAdd set v.Username else set)
    []

/-- The function `getLocalUserInfo`: one batched store lookup for the collected
usernames; no lookup when there is none, the empty map when it fails. -/
def getLocalUserInfo (store : Store) (sessions : List Session) : UserInfoMap :=
  let set := usernameSet sessions
  if set.length > 0 then
    let usernames := set
    match store usernames with
    | .ok users =>
      users.foldl
        (fun m u => mapSet m u.Username { Nickname := u.Nickname, Email := u.Email }) []
    | .error _ => []
  else []

/-- The `switch search_cate` of `GetOnlineSess`: the text the search is matched
against.  `cSess` is the binding after the substitution of lines 82-84, so the
source's guards `if cSess != nil` in the cases `"ip"` and `"remote_addr"` are
always taken. -/
def compareText (search_cate : String) (v : Session) (cSess : ConnSession)
    (userInfo : UserExtraInfo) : String :=
  if search_cate = "username" then v.Username
  else if search_cate = "nickname" then userInfo.Nickname
  else if search_cate = "email" then userInfo.Email
  else if search_cate = "group" then v.Group
  else if search_cate = "mac_addr" then v.MacAddr
  else if search_cate = "ip" then ipString cSess.IpAddr
  else if search_cate = "remote_addr" then cSess.RemoteAddr
  else ""

/-- The struct literal `Online{...}` of `GetOnlineSess`.  `HumanByte` is
`utils.HumanByte`, declared outside `online.go`. -/
def mkOnline (HumanByte : Nat → String) (v : Session) (cSess : ConnSession)
    (userInfo : UserExtraInfo) : Online :=
  let transportProtocol := if cSess.GetDtlsSession.isSome then "UDP" else "TCP"
  { Token := v.Token
    Ip := cSess.IpAddr
    Username := v.Username
    Nickname := userInfo.Nickname
    Email := userInfo.Email
    Group := v.Group
    MacAddr := v.MacAddr
    UniqueMac := v.UniqueMac
    RemoteAddr := cSess.RemoteAddr
    TransportProtocol := transportProtocol
    TunName := cSess.IfName
    Mtu := cSess.Mtu
    Client := cSess.Client
    BandwidthUp := HumanByte cSess.BandwidthUpPeriod ++ "/s"
    BandwidthDown := HumanByte cSess.BandwidthDownPeriod ++ "/s"
    BandwidthUpAll := HumanByte cSess.BandwidthUpAll
    BandwidthDownAll := HumanByte cSess.BandwidthDownAll
    LastLogin := v.LastLogin }

/-- One iteration of `for _, v := range sessions` in `GetOnlineSess`, on the
records `datas` collected so far. -/
def sessStep (HumanByte : Nat → String) (userInfoMap : UserInfoMap)
    (search_cate search_text : String) (show_sleeper : Bool)
    (datas : List Online) (v : Session) : List Online :=
  let cSess := v.CSess.getD ConnSession.zero
  let userInfo := mapGet userInfoMap v.Username
  let compareText := compareText search_cate v cSess userInfo
  if search_cate ≠ "" && !Contains compareText search_text then
    datas
  else if show_sleeper || v.IsActive then
    datas ++ [mkOnline HumanByte v cSess userInfo]
  else
    datas

/-- The function `GetOnlineSess`. -/
def GetOnlineSess (HumanByte : Nat → String) (store : Store) (sessions : List Session)
    (search_cate search_text : String) (show_sleeper : Bool) : List Online :=
  let search_cate := if TrimSpace search_text = "" then "" else search_cate
  let userInfoMap := getLocalUserInfo store sessions
  let datas := sessions.foldl
    (sessStep HumanByte userInfoMap search_cate search_text show_sleeper) []
  sortSort datas

/-- The function `OnlineSess`. -/
def OnlineSess (HumanByte : Nat → String) (store : Store) (sessions : List Session) :
    List Online :=
  GetOnlineSess HumanByte store sessions "" "" false

/-! ## Reading the loop of `GetOnlineSess` session by session -/

/-- The record `GetOnlineSess` builds for the session `v`. -/
def recordOf (HumanByte : Nat → String) (userInfoMap : UserInfoMap) (v : Session) : Online :=
  mkOnline HumanByte v (v.CSess.getD ConnSession.zero) (mapGet userInfoMap v.Username)

/-- The text the search is matched against for the session `v`. -/
def candidate (userInfoMap : UserInfoMap) (search_cate : String) (v : Session) : String :=
  compareText search_cate v (v.CSess.getD ConnSession.zero) (mapGet userInfoMap v.Username)

/-- The session `v` is not skipped by the search filter (line 112). -/
def passesFilter (userInfoMap : UserInfoMap) (search_cate search_text : String)
    (v : Session) : Bool :=
  !(search_cate ≠ "" && !Contains (candidate userInfoMap search_cate v) search_text)

/-- The category after the normalisation of lines 68-70. -/
def normCate (search_cate search_text : String) : String :=
  if TrimSpace search_text = "" then "" else search_cate

/-- The seven categories the `switch` knows. -/
def recognized (search_cate : String) : Prop :=
  search_cate = "username" ∨ search_cate = "nickname" ∨ search_cate = "email"
    ∨ search_cate = "group" ∨ search_cate = "mac_addr" ∨ search_cate = "ip"
    ∨ search_cate = "remote_addr"

instance (search_cate : String) : Decidable (recognized search_cate) := by
  unfold recognized; infer_instance

/-- The session `v` yields a record: it passes the search filter and the
visibility test of line 117. -/
def selected (userInfoMap : UserInfoMap) (search_cate search_text : String)
    (show_sleeper : Bool) (v : Session) : Bool :=
  passesFilter userInfoMap search_cate search_text v && (show_sleeper || v.IsActive)

/-- A formatter standing for `utils.HumanByte` in the examples. -/
def sampleHumanByte (n : Nat) : String :=
  Nat.repr n ++ " B"

/-- The binding of the example session `alice`: address 10.0.0.5. -/
def aliceConn : ConnSession :=
  { ConnSession.zero with IpAddr := [10, 0, 0, 5] }

/-- The example session `t1` of the spec: alice, active, local, bound. -/
def alice : Session :=
  { Token := "t1", Username := "alice", Group := "g1", MacAddr := "aa:bb",
    UniqueMac := false, IsActive := true, AuthType := "local", LastLogin := 0,
    CSess := some aliceConn }

/-- The example session `t2` of the spec: bob, sleeping, without binding. -/
def bob : Session :=
  { Token := "t2", Username := "bob", Group := "g1", MacAddr := "",
    UniqueMac := false, IsActive := false, AuthType := "", LastLogin := 0,
    CSess := none }

/-- The store row of the spec's example: alice. -/
def aliceRow : User :=
  { Username := "alice", Nickname := "Alice A", Email := "a@x.com" }

/-- The example store of the spec: one row, for alice; a lookup yields the rows
of the requested usernames. -/
def sampleStore : Store :=
  fun usernames => .ok ([aliceRow].filter (fun u => u.Username ∈ usernames))

/-- An example session without binding, active, of user carol. -/
def carol : Session :=
  { Token := "t3", Username := "carol", Group := "g2", MacAddr := "",
    UniqueMac := false, IsActive := true, AuthType := "ldap", LastLogin := 0,
    CSess := none }

/-- An example session of `AuthType` `"radius"` whose user name is also
`"alice"`, bound to 10.0.0.3. -/
def aliceRadius : Session :=
  { Token := "t4", Username := "alice", Group := "g2", MacAddr := "cc:dd",
    UniqueMac := false, IsActive := true, AuthType := "radius", LastLogin := 0,
    CSess := some { ConnSession.zero with IpAddr := [10, 0, 0, 3] } }

/-- A record with its two enrichment fields blanked: what is left are the
fields that do not come from the store. -/
def withoutEnrichment (r : Online) : Online :=
  { r with Nickname := "", Email := "" }

/-- A store row whose user name is written with a capital: Alice. -/
def aliceCapRow : User :=
  { Username := "Alice", Nickname := "Alice A", Email := "a@x.com" }

/-- The text in lower case, as a case-insensitive collation compares it. -/
def foldCase (s : String) : String :=
  String.mk (s.data.map Char.toLower)

/-- A store that compares user names without regard to case: it holds the row
`Alice` and yields it for a request of `"alice"`. -/
def caseInsensitiveStore : Store :=
  fun usernames =>
    .ok ([aliceCapRow].filter
      (fun u => usernames.any (fun k => foldCase k == foldCase u.Username)))

/-- An example session that sleeps: user `"Alice"`, `AuthType` `"radius"`,
without binding. -/
def aliceCapAsleep : Session :=
  { Token := "t7", Username := "Alice", Group := "g2", MacAddr := "",
    UniqueMac := false, IsActive := false, AuthType := "radius", LastLogin := 0,
    CSess := none }

/-- A second store row: erin. -/
def erinRow : User :=
  { Username := "erin", Nickname := "Erin E", Email := "e@x.com" }

/-- A store with the rows of alice and erin; a lookup yields the rows of the
requested usernames. -/
def twoRowStore : Store :=
  fun usernames => .ok ([aliceRow, erinRow].filter (fun u => u.Username ∈ usernames))

/-- An example session that sleeps: user erin, `AuthType` `"local"`, not active,
without binding. -/
def erinAsleep : Session :=
  { Token := "t8", Username := "erin", Group := "g1", MacAddr := "",
    UniqueMac := false, IsActive := false, AuthType := "local", LastLogin := 0,
    CSess := none }

/-- A store whose lookup fails. -/
def failingStore : Store :=
  fun _ => .error "connection refused"

/-! ## The calls with their effects: locks, store lookups, nil dereferences -/

/-- An effect of a call that is visible outside of it: an operation on the
registry lock `sessMux`, an operation on the lock `mux` of the session with the
given token, or the store lookup with the user names it sends. -/
inductive Event where
  | sessMuxLock
  | sessMuxUnlock
  | muxLock (token : String)
  | muxUnlock (token : String)
  | storeLookup (usernames : List String)
  deriving DecidableEq, Repr

/-- The first loop of `getLocalUserInfo` with its events: each iteration takes
and releases the lock of its session. -/
def usernameSetRun (sessions : List Session) : List String × List Event :=
  sessions.foldl
    (fun (acc : List String × List Event) v =>
      (if v.IsActive && v.AuthType == "local" then setAdd acc.1 v.Username else acc.1,
        acc.2 ++ [Event.muxLock v.Token, Event.muxUnlock v.Token]))
    ([], [])

/-- The function `getLocalUserInfo` with the events of its run: the registry
lock around the first loop, then the store lookup, if one is made. -/
def getLocalUserInfoRun (store : Store) (sessions : List Session) :
    UserInfoMap × List Event :=
  let pass := usernameSetRun sessions
  let set := pass.1
  let events := [Event.sessMuxLock] ++ pass.2 ++ [Event.sessMuxUnlock]
  if set.length > 0 then
    let usernames := set
    match store usernames with
    | .ok users =>
      (users.foldl
        (fun m u => mapSet m u.Username { Nickname := u.Nickname, Email := u.Email }) [],
        events ++ [Event.storeLookup usernames])
    | .error _ => ([], events ++ [Event.storeLookup usernames])
  else ([], events)

/-- A field access `cSess.f` through the pointer `cSess`: a nil pointer makes
the call fault. -/
def deref (cSess : Option ConnSession) : Except String ConnSession :=
  match cSess with
  | some cs => .ok cs
  | none => .error "invalid memory address or nil pointer dereference"

/-- The `switch search_cate` of `GetOnlineSess` on the pointer `cSess`, with the
source's guards `if cSess != nil` in the cases `"ip"` and `"remote_addr"`. -/
def compareTextRun (search_cate : String) (v : Session) (cSess : Option ConnSession)
    (userInfo : UserExtraInfo) : String :=
  if search_cate = "username" then v.Username
  else if search_cate = "nickname" then userInfo.Nickname
  else if search_cate = "email" then userInfo.Email
  else if search_cate = "group" then v.Group
  else if search_cate = "mac_addr" then v.MacAddr
  else if search_cate = "ip" then
    match cSess with
    | some cs => ipString cs.IpAddr
    | none => ""
  else if search_cate = "remote_addr" then
    match cSess with
    | some cs => cs.RemoteAddr
    | none => ""
  else ""

/-- One iteration of the loop of `GetOnlineSess` with its effects: the records
collected so far and the events of the iteration, or a fault.  `cSess` is a
pointer here, nil when the session has no binding, and every `cSess.f` of the
struct literal goes through `deref`. -/
def sessStepRun (HumanByte : Nat → String) (userInfoMap : UserInfoMap)
    (search_cate search_text : String) (show_sleeper : Bool)
    (datas : List Online) (v : Session) : Except String (List Online × List Event) :=
  let cSess : Option ConnSession := v.CSess
  let cSess := if cSess.isNone then some ConnSession.zero else cSess
  let userInfo := mapGet userInfoMap v.Username
  let compareText := compareTextRun search_cate v cSess userInfo
  if search_cate ≠ "" && !Contains compareText search_text then
    .ok (datas, [Event.muxLock v.Token, Event.muxUnlock v.Token])
  else if show_sleeper || v.IsActive then
    match deref cSess with
    | .ok cs =>
      .ok (datas ++ [mkOnline HumanByte v cs userInfo],
        [Event.muxLock v.Token, Event.muxUnlock v.Token])
    | .error e => .error e
  else
    .ok (datas, [Event.muxLock v.Token, Event.muxUnlock v.Token])

/-- The loop `for _, v := range sessions` of `GetOnlineSess` with its effects. -/
def sessLoopRun (HumanByte : Nat → String) (userInfoMap : UserInfoMap)
    (search_cate search_text : String) (show_sleeper : Bool) :
    List Session → List Online → List Event → Except String (List Online × List Event)
  | [], datas, events => .ok (datas, events)
  | v :: vs, datas, events =>
    match sessStepRun HumanByte userInfoMap search_cate search_text show_sleeper datas v with
    | .ok (datas', stepEvents) =>
      sessLoopRun HumanByte userInfoMap search_cate search_text show_sleeper vs datas'
        (events ++ stepEvents)
    | .error e => .error e

/-- The function `GetOnlineSess` with its effects: the records it returns and
the events of the call in order, or a fault.  The deferred `sessMux.Unlock()`
is the last event. -/
def GetOnlineSessRun (HumanByte : Nat → String) (store : Store) (sessions : List Session)
    (search_cate search_text : String) (show_sleeper : Bool) :
    Except String (List Online × List Event) :=
  let search_cate := if TrimSpace search_text = "" then "" else search_cate
  let info := getLocalUserInfoRun store sessions
  match sessLoopRun HumanByte info.1 search_cate search_text show_sleeper sessions []
      (info.2 ++ [Event.sessMuxLock]) with
  | .ok (datas, events) => .ok (sortSort datas, events ++ [Event.sessMuxUnlock])
  | .error e => .error e

/-- The events of one pass over the registry: for each session in turn, its
lock is taken and released. -/
def sessionLocks (sessions : List Session) : List Event :=
  sessions.flatMap (fun v => [Event.muxLock v.Token, Event.muxUnlock v.Token])

/-- The store lookups of `getLocalUserInfo`: one, when a user name was
collected. -/
def storeLookups (sessions : List Session) : List Event :=
  if (usernameSet sessions).length > 0 then [Event.storeLookup (usernameSet sessions)]
  else []

/-- The events of one call of `GetOnlineSess` on the registry `sessions`. -/
def callEvents (sessions : List Session) : List Event :=
  [Event.sessMuxLock] ++ sessionLocks sessions ++ [Event.sessMuxUnlock]
    ++ storeLookups sessions
    ++ [Event.sessMuxLock] ++ sessionLocks sessions ++ [Event.sessMuxUnlock]

/-- The event is a store lookup. -/
def Event.isStoreLookup : Event → Bool
  | .storeLookup _ => true
  | _ => false

/-- The locks held at a point of a call: the registry lock, and the session
locks by token. -/
structure Held where
  registry : Bool
  sessions : List String
  deriving DecidableEq, Repr

/-- No lock is held. -/
def Held.nothing : Held :=
  { registry := false, sessions := [] }

/-- The locking discipline of the spec, one event at a time; `none` when the
event breaks it.  The registry lock is taken only when free and released only
when held with no session lock held; a session lock is taken only while the
registry lock is held and no session lock is held, and released only when it
is the one held; a store lookup is made only while no lock is held. -/
def lockStep (h : Held) : Event → Option Held
  | .sessMuxLock =>
    if h.registry = false ∧ h.sessions = [] then some { h with registry := true } else none
  | .sessMuxUnlock =>
    if h.registry = true ∧ h.sessions = [] then some { h with registry := false } else none
  | .muxLock token =>
    if h.registry = true ∧ h.sessions = [] then some { h with sessions := [token] } else none
  | .muxUnlock token =>
    if h.sessions = [token] then some { h with sessions := [] } else none
  | .storeLookup _ =>
    if h.registry = false ∧ h.sessions = [] then some h else none

/-- The locking discipline along a sequence of events: the locks held at its
end, `none` when some event breaks the discipline. -/
def lockRun : Held → List Event → Option Held
  | h, [] => some h
  | h, e :: es =>
    match lockStep h e with
    | some h' => lockRun h' es
    | none => none

/-- An example session that sleeps: user alice, `AuthType` `"local"`, not
active, without binding. -/
def aliceAsleep : Session :=
  { Token := "t5", Username := "alice", Group := "g1", MacAddr := "aa:bb",
    UniqueMac := false, IsActive := false, AuthType := "local", LastLogin := 0,
    CSess := none }

/-- The binding of the example session `dave`: address 10.0.0.9, counters
1500, 2500, 3500000 and 4500000, and a datagram sub-session. -/
def daveConn : ConnSession :=
  { IpAddr := [10, 0, 0, 9], RemoteAddr := "198.51.100.7:50123", IfName := "tun3",
    Mtu := 1399, Client := "pc", BandwidthUpPeriod := 1500, BandwidthDownPeriod := 2500,
    BandwidthUpAll := 3500000, BandwidthDownAll := 4500000, dSess := some {} }

/-- An example session with a datagram sub-session: dave, active, bound. -/
def dave : Session :=
  { Token := "t6", Username := "dave", Group := "g1", MacAddr := "ee:ff",
    UniqueMac := true, IsActive := true, AuthType := "ldap", LastLogin := 1700000000,
    CSess := some daveConn }

/-! ## Lemmas: `bytes.Compare` -/

theorem bytesCompare_swap (a b : List Nat) : bytesCompare b a = - bytesCompare a b := by
  induction a generalizing b with
  | nil => cases b <;> simp [bytesCompare]
  | cons x xs ih =>
    cases b with
    | nil => simp [bytesCompare]
    | cons y ys =>
      simp only [bytesCompare]
      by_cases h1 : x < y
      · have h2 : ¬ y < x := by omega
        simp [h1, h2]
      · by_cases h2 : y < x
        · simp [h1, h2]
        · simp [h1, h2, ih]

theorem bytesCompare_le_trans (a b c : List Nat)
    (hab : bytesCompare a b ≤ 0) (hbc : bytesCompare b c ≤ 0) : bytesCompare a c ≤ 0 := by
  induction a generalizing b c with
  | nil => cases c <;> simp [bytesCompare]
  | cons x xs ih =>
    cases b with
    | nil => simp [bytesCompare] at hab
    | cons y ys =>
      cases c with
      | nil => simp [bytesCompare] at hbc
      | cons z zs =>
        simp only [bytesCompare] at hab hbc ⊢
        by_cases hxy : x < y
        · have hxz : x < z := by
            by_cases hyz : y < z
            · omega
            · by_cases hzy : z < y
              · simp [hyz, hzy] at hbc
              · omega
          simp [hxz]
        · by_cases hyx : y < x
          · simp [hxy, hyx] at hab
          · have hxy' : x = y := by omega
            subst hxy'
            simp only [hxy, if_false] at hab
            by_cases hxz : x < z
            · simp [hxz]
            · by_cases hzx : z < x
              · simp [hxz, hzx] at hbc
              · simp only [hxz, hzx, if_false] at hbc ⊢
                exact ih ys zs hab hbc

theorem bytesCompare_eq_zero_iff (a b : List Nat) : bytesCompare a b = 0 ↔ a = b := by
  induction a generalizing b with
  | nil => cases b <;> simp [bytesCompare]
  | cons x xs ih =>
    cases b with
    | nil => simp [bytesCompare]
    | cons y ys =>
      simp only [bytesCompare]
      by_cases h1 : x < y
      · have : x ≠ y := by omega
        simp [h1, this]
      · by_cases h2 : y < x
        · have : x ≠ y := by omega
          simp [h1, h2, this]
        · have : x = y := by omega
          simp [h1, h2, this, ih]

/-- The comparison `bytes.Compare(a, b) < 0` is the lexicographic order of the
two byte sequences. -/
theorem bytesCompare_lt_iff_lex (a b : List Nat) :
    bytesCompare a b < 0 ↔ List.Lex (· < ·) a b := by
  induction a generalizing b with
  | nil =>
    cases b with
    | nil => simp [bytesCompare, List.Lex.not_nil_right]
    | cons y ys => simp [bytesCompare, List.Lex.nil]
  | cons x xs ih =>
    cases b with
    | nil => simp [bytesCompare, List.Lex.not_nil_right]
    | cons y ys =>
      simp only [bytesCompare]
      by_cases h1 : x < y
      · simp [h1, List.Lex.rel h1]
      · by_cases h2 : y < x
        · simp only [h1, h2, if_false, if_true]
          constructor
          · intro h; omega
          · intro h
            cases h with
            | cons h => omega
            | rel h => omega
        · have hxy : x = y := by omega
          subst hxy
          simp [h1, ih, List.Lex.cons_iff]

/-! ## Lemmas: the sort -/

theorem Less_asymm {a b : Online} (h : Less a b = true) : Less b a = false := by
  simp only [Less, decide_eq_true_eq, decide_eq_false_iff_not] at h ⊢
  rw [bytesCompare_swap]; omega

theorem Less_false_trans {a b c : Online} (hab : Less a b = false) (hbc : Less b c = false) :
    Less a c = false := by
  simp only [Less, decide_eq_false_iff_not, not_lt] at hab hbc ⊢
  have h1 : bytesCompare b.Ip a.Ip ≤ 0 := by rw [bytesCompare_swap]; omega
  have h2 : bytesCompare c.Ip b.Ip ≤ 0 := by rw [bytesCompare_swap]; omega
  have h3 := bytesCompare_le_trans _ _ _ h2 h1
  rw [bytesCompare_swap] at h3; omega

theorem insertLeft_perm (x : Online) (l : List Online) : (insertLeft x l).Perm (x :: l) := by
  induction l with
  | nil => simp [insertLeft]
  | cons y ys ih =>
    simp only [insertLeft]
    split
    · exact (List.Perm.cons y ih).trans (List.Perm.swap x y ys)
    · exact List.Perm.refl _

theorem foldl_insertLeft_perm (l acc : List Online) :
    (l.foldl (fun sortedPrefix x => insertLeft x sortedPrefix) acc).Perm (acc ++ l) := by
  induction l generalizing acc with
  | nil => simp
  | cons x xs ih =>
    simp only [List.foldl_cons]
    refine (ih _).trans ?_
    refine ((insertLeft_perm x acc).append_right xs).trans ?_
    exact List.perm_middle.symm

theorem sortSort_perm (l : List Online) : (sortSort l).Perm l := by
  unfold sortSort insertionSort
  exact (List.reverse_perm _).trans (by simpa using foldl_insertLeft_perm l [])

theorem insertLeft_sorted (x : Online) (l : List Online)
    (h : l.Pairwise (fun a b => Less a b = false)) :
    (insertLeft x l).Pairwise (fun a b => Less a b = false) := by
  induction l with
  | nil => simp [insertLeft]
  | cons y ys ih =>
    simp only [insertLeft]
    rw [List.pairwise_cons] at h
    split
    · rename_i hxy
      rw [List.pairwise_cons]
      refine ⟨?_, ih h.2⟩
      intro z hz
      have hz' := (insertLeft_perm x ys).mem_iff.mp hz
      rw [List.mem_cons] at hz'
      rcases hz' with rfl | hz'
      · exact Less_asymm hxy
      · exact h.1 z hz'
    · rename_i hxy
      have hxy' : Less x y = false := by simpa using hxy
      rw [List.pairwise_cons]
      refine ⟨?_, List.pairwise_cons.mpr h⟩
      intro z hz
      rw [List.mem_cons] at hz
      rcases hz with rfl | hz
      · exact hxy'
      · exact Less_false_trans hxy' (h.1 z hz)

theorem foldl_insertLeft_sorted (l acc : List Online)
    (h : acc.Pairwise (fun a b => Less a b = false)) :
    (l.foldl (fun sortedPrefix x => insertLeft x sortedPrefix) acc).Pairwise
      (fun a b => Less a b = false) := by
  induction l generalizing acc with
  | nil => simpa using h
  | cons x xs ih => exact ih _ (insertLeft_sorted x acc h)

/-- The result of the sort is ascending: no record is `Less` than one before
it. -/
theorem sortSort_sorted (l : List Online) :
    (sortSort l).Pairwise (fun a b => Less b a = false) := by
  unfold sortSort insertionSort
  rw [List.pairwise_reverse]
  exact foldl_insertLeft_sorted l [] List.Pairwise.nil

/-! ## Lemmas: strings -/

theorem TrimSpace_eq_empty_of_empty {t : String} (h : t = "") : TrimSpace t = "" := by
  subst h; rfl

theorem containsChars_nil_left (sub : List Char) (h : sub ≠ []) :
    containsChars [] sub = false := by
  cases sub with
  | nil => exact absurd rfl h
  | cons c cs => simp [containsChars, hasPrefix]

theorem Contains_empty_left {t : String} (h : TrimSpace t ≠ "") : Contains "" t = false := by
  have ht : t.data ≠ [] := by
    intro hd
    apply h
    apply TrimSpace_eq_empty_of_empty
    cases t
    simp_all
  exact containsChars_nil_left _ ht

theorem hasPrefix_iff (s sub : List Char) : hasPrefix s sub = true ↔ sub <+: s := by
  induction s generalizing sub with
  | nil => cases sub <;> simp [hasPrefix]
  | cons c cs ih =>
    cases sub with
    | nil => simp [hasPrefix]
    | cons d ds =>
      simp only [hasPrefix, Bool.and_eq_true, beq_iff_eq, ih, List.cons_prefix_cons]
      constructor
      · rintro ⟨h1, h2⟩; exact ⟨h1.symm, h2⟩
      · rintro ⟨h1, h2⟩; exact ⟨h1.symm, h2⟩

theorem containsChars_iff (s sub : List Char) : containsChars s sub = true ↔ sub <:+: s := by
  induction s with
  | nil => simp [containsChars, hasPrefix_iff]
  | cons c cs ih =>
    simp only [containsChars, Bool.or_eq_true, hasPrefix_iff, ih, List.infix_cons_iff]

/-- The function `Contains` is substring containment: the runes of `substr`
occur in `s` as a contiguous block. -/
theorem Contains_iff (s substr : String) : Contains s substr = true ↔ substr.data <:+: s.data :=
  containsChars_iff _ _

/-! ## Lemmas: the loop -/

theorem sessStep_eq (HumanByte : Nat → String) (m : UserInfoMap) (cate text : String)
    (sl : Bool) (acc : List Online) (v : Session) :
    sessStep HumanByte m cate text sl acc v
      = if selected m cate text sl v = true then acc ++ [recordOf HumanByte m v] else acc := by
  unfold sessStep selected passesFilter candidate recordOf
  by_cases hc : cate = ""
  · cases hv : (sl || v.IsActive) <;> simp [hc]
  · cases hv : (sl || v.IsActive) <;>
      cases hf : Contains (compareText cate v (v.CSess.getD ConnSession.zero)
        (mapGet m v.Username)) text <;> simp [hc, hf]

theorem foldl_sessStep (HumanByte : Nat → String) (m : UserInfoMap) (cate text : String)
    (sl : Bool) (l : List Session) (acc : List Online) :
    l.foldl (sessStep HumanByte m cate text sl) acc
      = acc ++ (l.filter (selected m cate text sl)).map (recordOf HumanByte m) := by
  induction l generalizing acc with
  | nil => simp
  | cons v vs ih =>
    rw [List.foldl_cons, ih, sessStep_eq]
    by_cases hs : selected m cate text sl v = true
    · simp [hs]
    · simp [hs]

/-- The function `GetOnlineSess` as sort of map of filter. -/
theorem GetOnlineSess_eq (HumanByte : Nat → String) (store : Store) (reg : List Session)
    (cate text : String) (sl : Bool) :
    GetOnlineSess HumanByte store reg cate text sl
      = sortSort ((reg.filter
          (selected (getLocalUserInfo store reg) (normCate cate text) text sl)).map
          (recordOf HumanByte (getLocalUserInfo store reg))) := by
  simp only [GetOnlineSess, normCate, foldl_sessStep, List.nil_append]

theorem GetOnlineSess_perm (HumanByte : Nat → String) (store : Store) (reg : List Session)
    (cate text : String) (sl : Bool) :
    (GetOnlineSess HumanByte store reg cate text sl).Perm
      ((reg.filter (selected (getLocalUserInfo store reg) (normCate cate text) text sl)).map
        (recordOf HumanByte (getLocalUserInfo store reg))) := by
  rw [GetOnlineSess_eq]; exact sortSort_perm _

theorem mem_GetOnlineSess (HumanByte : Nat → String) (store : Store) (reg : List Session)
    (cate text : String) (sl : Bool) (r : Online) :
    r ∈ GetOnlineSess HumanByte store reg cate text sl ↔
      ∃ v ∈ reg, selected (getLocalUserInfo store reg) (normCate cate text) text sl v = true
        ∧ recordOf HumanByte (getLocalUserInfo store reg) v = r := by
  rw [(GetOnlineSess_perm HumanByte store reg cate text sl).mem_iff]
  simp only [List.mem_map, List.mem_filter]
  constructor
  · rintro ⟨v, ⟨hv, hs⟩, rfl⟩; exact ⟨v, hv, hs, rfl⟩
  · rintro ⟨v, hv, hs, rfl⟩; exact ⟨v, ⟨hv, hs⟩, rfl⟩

theorem normCate_of_blank {cate text : String} (h : TrimSpace text = "") :
    normCate cate text = "" := by
  simp [normCate, h]

theorem normCate_of_not_blank {cate text : String} (h : TrimSpace text ≠ "") :
    normCate cate text = cate := by
  simp [normCate, h]

theorem selected_empty_cate (m : UserInfoMap) (text : String) (sl : Bool) (v : Session) :
    selected m "" text sl v = (sl || v.IsActive) := by
  simp [selected, passesFilter]

theorem compareText_unrecognized {cate : String} (h : ¬ recognized cate) (v : Session)
    (cSess : ConnSession) (userInfo : UserExtraInfo) :
    compareText cate v cSess userInfo = "" := by
  simp only [recognized, not_or] at h
  obtain ⟨h1, h2, h3, h4, h5, h6, h7⟩ := h
  simp [compareText, h1, h2, h3, h4, h5, h6, h7]

theorem recognized_ne_empty {cate : String} (h : recognized cate) : cate ≠ "" := by
  intro he
  subst he
  exact absurd h (by decide)

theorem selected_not_blank (m : UserInfoMap) {cate text : String} (hc : cate ≠ "")
    (sl : Bool) (v : Session) :
    selected m cate text sl v
      = (Contains (candidate m cate v) text && (sl || v.IsActive)) := by
  simp [selected, passesFilter, hc]

/-! ## The search filter -/

/-- C1, counterexample: with the unrecognized category `"foo"` and the text
`"x"` the listing is empty, while the unfiltered listing has two records. -/
theorem unrecognized_category_not_unfiltered :
    ¬ recognized "foo"
      ∧ GetOnlineSess sampleHumanByte sampleStore [alice, bob] "foo" "x" true = []
      ∧ GetOnlineSess sampleHumanByte sampleStore [alice, bob] "foo" "x" true
          ≠ GetOnlineSess sampleHumanByte sampleStore [alice, bob] "" "" true := by
  decide

/-- C1, amended: for a category that is none of the seven recognized ones, the
listing is the unfiltered one when the category is empty or the text is blank,
and it is empty when the category is not empty and the text is not blank. -/
theorem GetOnlineSess_unrecognized (HumanByte : Nat → String) (store : Store)
    (reg : List Session) (cate text : String) (sl : Bool) (hc : ¬ recognized cate) :
    ((cate = "" ∨ TrimSpace text = "") →
        GetOnlineSess HumanByte store reg cate text sl
          = GetOnlineSess HumanByte store reg "" "" sl)
      ∧ ((cate ≠ "" ∧ TrimSpace text ≠ "") →
        GetOnlineSess HumanByte store reg cate text sl = []) := by
  constructor
  · intro h
    have hn : normCate cate text = "" := by
      rcases h with h | h
      · simp [normCate, h]
      · exact normCate_of_blank h
    have hn' : normCate "" "" = "" := by simp [normCate]
    have hsel : selected (getLocalUserInfo store reg) "" text sl
        = selected (getLocalUserInfo store reg) "" "" sl := by
      funext v
      rw [selected_empty_cate, selected_empty_cate]
    rw [GetOnlineSess_eq, GetOnlineSess_eq, hn, hn', hsel]
  · rintro ⟨hne, ht⟩
    rw [GetOnlineSess_eq, normCate_of_not_blank ht]
    have hnone : reg.filter (selected (getLocalUserInfo store reg) cate text sl) = [] := by
      rw [List.filter_eq_nil_iff]
      intro v _
      have hcand : candidate (getLocalUserInfo store reg) cate v = "" :=
        compareText_unrecognized hc _ _ _
      simp [selected, passesFilter, hne, hcand, Contains_empty_left ht]
    rw [hnone]
    rfl

/-- C1, an instance: category `"foo"`; with the blank text `" "` the listing is
the unfiltered one, with the text `"x"` it is empty. -/
theorem GetOnlineSess_unrecognized_witness :
    ¬ recognized "foo"
      ∧ GetOnlineSess sampleHumanByte sampleStore [alice, bob] "foo" " " true
          = GetOnlineSess sampleHumanByte sampleStore [alice, bob] "" "" true
      ∧ GetOnlineSess sampleHumanByte sampleStore [alice, bob] "foo" "x" true = [] :=
  ⟨by decide,
   (GetOnlineSess_unrecognized sampleHumanByte sampleStore [alice, bob] "foo" " " true
      (by decide)).1 (Or.inr (by decide)),
   (GetOnlineSess_unrecognized sampleHumanByte sampleStore [alice, bob] "foo" "x" true
      (by decide)).2 ⟨by decide, by decide⟩⟩

/-- C2, the code at the failing input: for the session `bob`, which has no
binding, the text matched in category `"ip"` is `"<nil>"`, not the empty
string, and the search for `"nil"` in category `"ip"` lists the session. -/
theorem ip_search_lists_unbound_session :
    bob.CSess = none
      ∧ candidate (getLocalUserInfo sampleStore [alice, bob]) "ip" bob = "<nil>"
      ∧ TrimSpace "nil" ≠ ""
      ∧ (GetOnlineSess sampleHumanByte sampleStore [alice, bob] "ip" "nil" true).map
          Online.Token = ["t2"] := by
  decide

/-- C3: when the search text is blank after trimming, the listing is the same
for every category, and the record of every session that passes the visibility
test (`show_sleeper` or `IsActive`) is in it. -/
theorem GetOnlineSess_blank_text (HumanByte : Nat → String) (store : Store)
    (reg : List Session) (cate text : String) (sl : Bool) (ht : TrimSpace text = "") :
    (∀ cate' : String, GetOnlineSess HumanByte store reg cate text sl
        = GetOnlineSess HumanByte store reg cate' text sl)
      ∧ (∀ v ∈ reg, (sl || v.IsActive) = true →
          recordOf HumanByte (getLocalUserInfo store reg) v
            ∈ GetOnlineSess HumanByte store reg cate text sl) := by
  constructor
  · intro cate'
    rw [GetOnlineSess_eq, GetOnlineSess_eq, normCate_of_blank ht, normCate_of_blank ht]
  · intro v hv hvis
    rw [mem_GetOnlineSess]
    refine ⟨v, hv, ?_, rfl⟩
    rw [normCate_of_blank ht, selected_empty_cate]
    exact hvis

/-- C3, an instance: the text of two blanks; categories `"group"` and `"ip"`
give the same listing, and the record of the active session `alice` is in it. -/
theorem GetOnlineSess_blank_text_witness :
    TrimSpace "  " = ""
      ∧ GetOnlineSess sampleHumanByte sampleStore [alice, bob] "group" "  " false
          = GetOnlineSess sampleHumanByte sampleStore [alice, bob] "ip" "  " false
      ∧ recordOf sampleHumanByte (getLocalUserInfo sampleStore [alice, bob]) alice
          ∈ GetOnlineSess sampleHumanByte sampleStore [alice, bob] "group" "  " false :=
  ⟨by decide,
   (GetOnlineSess_blank_text sampleHumanByte sampleStore [alice, bob] "group" "  " false
      (by decide)).1 "ip",
   (GetOnlineSess_blank_text sampleHumanByte sampleStore [alice, bob] "group" "  " false
      (by decide)).2 alice (by decide) (by decide)⟩

/-- C4: for a recognized category and a text that is not blank, the listing
with sleepers holds exactly the records of the sessions whose candidate string
contains the text as a substring: as a multiset, and, when the tokens of the
registry are distinct, a record with the token of a session is listed if and
only if the text occurs in that session's candidate string.  The candidate
string is the Username, the enrichment Nickname, the enrichment Email, the
Group, the MacAddr, the string form of the IP of the binding, or its
RemoteAddr. -/
theorem GetOnlineSess_category_filter (HumanByte : Nat → String) (store : Store)
    (reg : List Session) (cate text : String)
    (hc : recognized cate) (ht : TrimSpace text ≠ "") :
    (GetOnlineSess HumanByte store reg cate text true).Perm
        ((reg.filter
          (fun v => Contains (candidate (getLocalUserInfo store reg) cate v) text)).map
          (recordOf HumanByte (getLocalUserInfo store reg)))
      ∧ ((reg.map Session.Token).Nodup → ∀ v ∈ reg,
          ((∃ r ∈ GetOnlineSess HumanByte store reg cate text true, r.Token = v.Token)
            ↔ text.data <:+: (candidate (getLocalUserInfo store reg) cate v).data))
      ∧ (∀ (m : UserInfoMap) (v : Session),
          candidate m "username" v = v.Username
            ∧ candidate m "nickname" v = (mapGet m v.Username).Nickname
            ∧ candidate m "email" v = (mapGet m v.Username).Email
            ∧ candidate m "group" v = v.Group
            ∧ candidate m "mac_addr" v = v.MacAddr
            ∧ candidate m "ip" v = ipString (v.CSess.getD ConnSession.zero).IpAddr
            ∧ candidate m "remote_addr" v = (v.CSess.getD ConnSession.zero).RemoteAddr) := by
  have hne : cate ≠ "" := recognized_ne_empty hc
  have hsel : selected (getLocalUserInfo store reg) (normCate cate text) text true
      = fun v => Contains (candidate (getLocalUserInfo store reg) cate v) text := by
    funext v
    rw [normCate_of_not_blank ht, selected_not_blank _ hne]
    simp
  refine ⟨?_, ?_, ?_⟩
  · have h := GetOnlineSess_perm HumanByte store reg cate text true
    rw [hsel] at h
    exact h
  · intro hnd v hv
    rw [← Contains_iff]
    constructor
    · rintro ⟨r, hr, htok⟩
      rw [mem_GetOnlineSess] at hr
      obtain ⟨w, hw, hws, rfl⟩ := hr
      have hwv : w = v := List.inj_on_of_nodup_map hnd hw hv htok
      subst hwv
      rw [hsel] at hws
      exact hws
    · intro hcont
      refine ⟨recordOf HumanByte (getLocalUserInfo store reg) v, ?_, rfl⟩
      rw [mem_GetOnlineSess]
      refine ⟨v, hv, ?_, rfl⟩
      rw [hsel]
      exact hcont
  · intro m v
    refine ⟨?_, ?_, ?_, ?_, ?_, ?_, ?_⟩ <;> simp [candidate, compareText]

/-- C4, the scenario of the spec: two sessions of group `"g1"`; the search for
`"g1"` in category `"group"` lists both, the search for `"g2"` lists none. -/
theorem GetOnlineSess_category_filter_witness :
    recognized "group" ∧ TrimSpace "g1" ≠ "" ∧ TrimSpace "g2" ≠ ""
      ∧ (GetOnlineSess sampleHumanByte sampleStore [alice, bob] "group" "g1" true).map
          Online.Token = ["t2", "t1"]
      ∧ GetOnlineSess sampleHumanByte sampleStore [alice, bob] "group" "g2" true = []
      ∧ (GetOnlineSess sampleHumanByte sampleStore [alice, bob] "group" "g1" true).Perm
          (([alice, bob].filter
            (fun v => Contains (candidate (getLocalUserInfo sampleStore [alice, bob])
              "group" v) "g1")).map
            (recordOf sampleHumanByte (getLocalUserInfo sampleStore [alice, bob])))
      ∧ ((∃ r ∈ GetOnlineSess sampleHumanByte sampleStore [alice, bob] "group" "g2" true,
            r.Token = bob.Token)
          ↔ "g2".data <:+: (candidate (getLocalUserInfo sampleStore [alice, bob])
              "group" bob).data) :=
  ⟨by decide, by decide, by decide, by decide, by decide,
   (GetOnlineSess_category_filter sampleHumanByte sampleStore [alice, bob] "group" "g1"
      (by decide) (by decide)).1,
   (GetOnlineSess_category_filter sampleHumanByte sampleStore [alice, bob] "group" "g2"
      (by decide) (by decide)).2.1 (by decide) bob (by decide)⟩

/-! ## Sleepers -/

/-- C5: the listing with `show_sleeper = true` holds the records of the sessions
that pass the search filter, and the listing with `show_sleeper = false` holds
the records of those among them that have `IsActive = true`, both as
multisets. -/
theorem GetOnlineSess_sleepers (HumanByte : Nat → String) (store : Store)
    (reg : List Session) (cate text : String) :
    (GetOnlineSess HumanByte store reg cate text true).Perm
        ((reg.filter
          (passesFilter (getLocalUserInfo store reg) (normCate cate text) text)).map
          (recordOf HumanByte (getLocalUserInfo store reg)))
      ∧ (GetOnlineSess HumanByte store reg cate text false).Perm
        (((reg.filter
          (passesFilter (getLocalUserInfo store reg) (normCate cate text) text)).filter
            (fun v => v.IsActive)).map
          (recordOf HumanByte (getLocalUserInfo store reg))) := by
  constructor
  · have h := GetOnlineSess_perm HumanByte store reg cate text true
    have hsel : selected (getLocalUserInfo store reg) (normCate cate text) text true
        = passesFilter (getLocalUserInfo store reg) (normCate cate text) text := by
      funext v; simp [selected]
    rw [hsel] at h
    exact h
  · have h := GetOnlineSess_perm HumanByte store reg cate text false
    rw [List.filter_filter]
    have hsel : selected (getLocalUserInfo store reg) (normCate cate text) text false
        = fun v => (v.IsActive
            && passesFilter (getLocalUserInfo store reg) (normCate cate text) text v) := by
      funext v; simp [selected, Bool.and_comm]
    rw [hsel] at h
    exact h

/-! ## Ordering -/

theorem pairwise_getElem? {α : Type} {R : α → α → Prop} {l : List α} (h : l.Pairwise R)
    {i j : Nat} (hij : i < j) {a b : α} (ha : l[i]? = some a) (hb : l[j]? = some b) :
    R a b := by
  rw [List.getElem?_eq_some] at ha hb
  obtain ⟨hi, rfl⟩ := ha
  obtain ⟨hj, rfl⟩ := hb
  exact List.pairwise_iff_getElem.mp h i j hi hj hij

theorem GetOnlineSess_pairwise (HumanByte : Nat → String) (store : Store)
    (reg : List Session) (cate text : String) (sl : Bool) :
    (GetOnlineSess HumanByte store reg cate text sl).Pairwise
      (fun a b => Less b a = false) := by
  rw [GetOnlineSess_eq]; exact sortSort_sorted _

/-- C6: the listing is ascending by `bytes.Compare` of the `Ip` bytes: for
positions `i < j`, the `Ip` at `j` is not strictly less than the `Ip` at `i`,
by `bytes.Compare` and so in the lexicographic order of byte sequences. -/
theorem GetOnlineSess_sorted (HumanByte : Nat → String) (store : Store)
    (reg : List Session) (cate text : String) (sl : Bool) (i j : Nat) (a b : Online)
    (hij : i < j)
    (ha : (GetOnlineSess HumanByte store reg cate text sl)[i]? = some a)
    (hb : (GetOnlineSess HumanByte store reg cate text sl)[j]? = some b) :
    ¬ (bytesCompare b.Ip a.Ip < 0) ∧ ¬ List.Lex (· < ·) b.Ip a.Ip := by
  have h := pairwise_getElem? (GetOnlineSess_pairwise HumanByte store reg cate text sl)
    hij ha hb
  have h' : ¬ (bytesCompare b.Ip a.Ip < 0) := by
    simpa [Less] using h
  exact ⟨h', fun hl => h' ((bytesCompare_lt_iff_lex _ _).mpr hl)⟩

/-- C6, an instance: the listing of `alice` (10.0.0.5) and `bob` (no address)
has bob's record at position 0 and alice's at position 1. -/
theorem GetOnlineSess_sorted_witness :
    (GetOnlineSess sampleHumanByte sampleStore [alice, bob] "" "" true)[0]?
        = some (recordOf sampleHumanByte (getLocalUserInfo sampleStore [alice, bob]) bob)
      ∧ (GetOnlineSess sampleHumanByte sampleStore [alice, bob] "" "" true)[1]?
        = some (recordOf sampleHumanByte (getLocalUserInfo sampleStore [alice, bob]) alice)
      ∧ ¬ (bytesCompare [10, 0, 0, 5] [] < 0) ∧ ¬ List.Lex (· < ·) [10, 0, 0, 5] [] :=
  ⟨by decide, by decide,
   GetOnlineSess_sorted sampleHumanByte sampleStore [alice, bob] "" "" true 0 1
     (recordOf sampleHumanByte (getLocalUserInfo sampleStore [alice, bob]) bob)
     (recordOf sampleHumanByte (getLocalUserInfo sampleStore [alice, bob]) alice)
     (by decide) (by decide) (by decide)⟩

/-- C7, counterexample: `bob` and `carol` have no binding, so their records
are distinct and have the same (empty) `Ip`; bob's record precedes carol's
although its `Ip` is not less. -/
theorem equal_ip_order_not_iff :
    ¬ (∀ (i j : Nat) (A B : Online),
        (GetOnlineSess sampleHumanByte sampleStore [bob, carol] "" "" true)[i]? = some A →
        (GetOnlineSess sampleHumanByte sampleStore [bob, carol] "" "" true)[j]? = some B →
        A ≠ B → A.Ip.length = B.Ip.length →
        (i < j ↔ bytesCompare A.Ip B.Ip < 0)) := by
  intro h
  have h01 := h 0 1
    (recordOf sampleHumanByte (getLocalUserInfo sampleStore [bob, carol]) bob)
    (recordOf sampleHumanByte (getLocalUserInfo sampleStore [bob, carol]) carol)
    (by decide) (by decide) (by decide) (by decide)
  exact absurd (h01.mp (by decide)) (by decide)

/-- C7, amended: for two records `A` at position `i` and `B` at position `j`
of a listing whose `Ip` byte sequences differ, `A` precedes `B` if and only if
`bytes.Compare(ipA, ipB) < 0`. -/
theorem GetOnlineSess_order_iff (HumanByte : Nat → String) (store : Store)
    (reg : List Session) (cate text : String) (sl : Bool) (i j : Nat) (A B : Online)
    (hA : (GetOnlineSess HumanByte store reg cate text sl)[i]? = some A)
    (hB : (GetOnlineSess HumanByte store reg cate text sl)[j]? = some B)
    (hne : A.Ip ≠ B.Ip) :
    i < j ↔ bytesCompare A.Ip B.Ip < 0 := by
  have hpw := GetOnlineSess_pairwise HumanByte store reg cate text sl
  have hne0 : bytesCompare A.Ip B.Ip ≠ 0 := fun h0 =>
    hne ((bytesCompare_eq_zero_iff _ _).mp h0)
  constructor
  · intro hij
    have h := pairwise_getElem? hpw hij hA hB
    simp only [Less, decide_eq_false_iff_not, not_lt] at h
    rw [bytesCompare_swap] at h
    omega
  · intro hlt
    rcases Nat.lt_trichotomy i j with hij | hij | hij
    · exact hij
    · subst hij
      rw [hA] at hB
      exact absurd (congrArg Online.Ip (Option.some.inj hB)) hne
    · have h := pairwise_getElem? hpw hij hB hA
      simp only [Less, decide_eq_false_iff_not, not_lt] at h
      omega

/-- C7, an instance: `aliceRadius` (10.0.0.3) and `alice` (10.0.0.5) have
addresses of equal length; the record of 10.0.0.3 is at position 0, before the
record of 10.0.0.5 at position 1. -/
theorem GetOnlineSess_order_iff_witness :
    (GetOnlineSess sampleHumanByte sampleStore [alice, aliceRadius] "" "" true)[0]?
        = some (recordOf sampleHumanByte
            (getLocalUserInfo sampleStore [alice, aliceRadius]) aliceRadius)
      ∧ (GetOnlineSess sampleHumanByte sampleStore [alice, aliceRadius] "" "" true)[1]?
        = some (recordOf sampleHumanByte
            (getLocalUserInfo sampleStore [alice, aliceRadius]) alice)
      ∧ (0 < 1 ↔ bytesCompare [10, 0, 0, 3] [10, 0, 0, 5] < 0) :=
  ⟨by decide, by decide,
   GetOnlineSess_order_iff sampleHumanByte sampleStore [alice, aliceRadius] "" "" true 0 1
     (recordOf sampleHumanByte (getLocalUserInfo sampleStore [alice, aliceRadius]) aliceRadius)
     (recordOf sampleHumanByte (getLocalUserInfo sampleStore [alice, aliceRadius]) alice)
     (by decide) (by decide) (by decide)⟩

/-! ## Enrichment -/

theorem compareText_indep {cate : String} (h1 : cate ≠ "nickname") (h2 : cate ≠ "email")
    (v : Session) (cSess : ConnSession) (u u' : UserExtraInfo) :
    compareText cate v cSess u = compareText cate v cSess u' := by
  simp [compareText, h1, h2]

theorem selected_indep (m m' : UserInfoMap) {cate text : String}
    (hc : TrimSpace text = "" ∨ (cate ≠ "nickname" ∧ cate ≠ "email")) (sl : Bool) :
    selected m (normCate cate text) text sl = selected m' (normCate cate text) text sl := by
  funext v
  rcases hc with hb | ⟨h1, h2⟩
  · rw [normCate_of_blank hb, selected_empty_cate, selected_empty_cate]
  · by_cases hb : TrimSpace text = ""
    · rw [normCate_of_blank hb, selected_empty_cate, selected_empty_cate]
    · rw [normCate_of_not_blank hb]
      simp only [selected, passesFilter, candidate]
      rw [compareText_indep h1 h2 v _ (mapGet m v.Username) (mapGet m' v.Username)]

theorem withoutEnrichment_recordOf (HumanByte : Nat → String) (m m' : UserInfoMap)
    (v : Session) :
    withoutEnrichment (recordOf HumanByte m v) = withoutEnrichment (recordOf HumanByte m' v) := by
  simp [withoutEnrichment, recordOf, mkOnline]

theorem mem_setAdd (set : List String) (x k : String) :
    k ∈ setAdd set x ↔ k ∈ set ∨ k = x := by
  unfold setAdd
  split
  · rename_i h
    constructor
    · exact Or.inl
    · rintro (h' | rfl)
      · exact h'
      · exact h
  · simp

theorem mem_foldl_usernames (reg : List Session) (acc : List String) (k : String) :
    k ∈ reg.foldl
        (fun set v =>
          if v.IsActive && v.AuthType == "local" then setAdd set v.Username else set) acc
      ↔ k ∈ acc ∨ ∃ w ∈ reg, w.IsActive = true ∧ w.AuthType = "local" ∧ w.Username = k := by
  induction reg generalizing acc with
  | nil => simp
  | cons v vs ih =>
    rw [List.foldl_cons, ih]
    by_cases hv : (v.IsActive && v.AuthType == "local") = true
    · rw [if_pos hv, mem_setAdd]
      simp only [Bool.and_eq_true, beq_iff_eq] at hv
      constructor
      · rintro ((h | h) | ⟨w, hw, h⟩)
        · exact Or.inl h
        · exact Or.inr ⟨v, List.mem_cons_self _ _, hv.1, hv.2, h.symm⟩
        · exact Or.inr ⟨w, List.mem_cons_of_mem _ hw, h⟩
      · rintro (h | ⟨w, hw, h⟩)
        · exact Or.inl (Or.inl h)
        · rw [List.mem_cons] at hw
          rcases hw with rfl | hw
          · exact Or.inl (Or.inr h.2.2.symm)
          · exact Or.inr ⟨w, hw, h⟩
    · rw [if_neg hv]
      simp only [Bool.and_eq_true, beq_iff_eq] at hv
      constructor
      · rintro (h | ⟨w, hw, h⟩)
        · exact Or.inl h
        · exact Or.inr ⟨w, List.mem_cons_of_mem _ hw, h⟩
      · rintro (h | ⟨w, hw, h⟩)
        · exact Or.inl h
        · rw [List.mem_cons] at hw
          rcases hw with rfl | hw
          · exact absurd ⟨h.1, h.2.1⟩ hv
          · exact Or.inr ⟨w, hw, h⟩

/-- The collected user names are those of the active sessions of `AuthType`
`"local"`. -/
theorem mem_usernameSet (reg : List Session) (k : String) :
    k ∈ usernameSet reg
      ↔ ∃ w ∈ reg, w.IsActive = true ∧ w.AuthType = "local" ∧ w.Username = k := by
  unfold usernameSet
  rw [mem_foldl_usernames]
  simp

theorem lookup_mapSet_ne (m : UserInfoMap) (k k' : String) (x : UserExtraInfo)
    (h : k' ≠ k) (hm : m.lookup k = none) : (mapSet m k' x).lookup k = none := by
  rw [List.lookup_eq_none_iff] at hm ⊢
  intro p hp
  unfold mapSet at hp
  rw [List.mem_cons] at hp
  rcases hp with rfl | hp
  · simpa using fun he => h he.symm
  · exact hm p (List.mem_filter.mp hp).1

theorem lookup_foldl_mapSet (users : List User) (acc : UserInfoMap) (k : String)
    (hacc : acc.lookup k = none) (hk : ∀ u ∈ users, u.Username ≠ k) :
    (users.foldl
      (fun m u => mapSet m u.Username { Nickname := u.Nickname, Email := u.Email })
      acc).lookup k = none := by
  induction users generalizing acc with
  | nil => simpa using hacc
  | cons u us ih =>
    rw [List.foldl_cons]
    apply ih
    · exact lookup_mapSet_ne acc k u.Username _ (hk u (List.mem_cons_self _ _)) hacc
    · intro u' hu'
      exact hk u' (List.mem_cons_of_mem _ hu')

/-- A user name that was not collected has no entry in the map, when the store
yields rows of requested user names only. -/
theorem mapGet_getLocalUserInfo_of_not_mem (store : Store) (reg : List Session)
    (hstore : ∀ us rows, store us = Except.ok rows → ∀ u ∈ rows, u.Username ∈ us)
    (k : String) (hk : k ∉ usernameSet reg) :
    mapGet (getLocalUserInfo store reg) k = { Nickname := "", Email := "" } := by
  have hnone : (getLocalUserInfo store reg).lookup k = none := by
    unfold getLocalUserInfo
    simp only
    split
    · split
      · rename_i users hok
        apply lookup_foldl_mapSet
        · rfl
        · intro u hu he
          exact hk (he ▸ hstore _ _ hok u hu)
      · rfl
    · rfl
  simp [mapGet, hnone]

/-- C8, counterexample: in category `"nickname"` the search for `"Alice"` lists
the session `t1` when the store lookup succeeds and nothing when it fails. -/
theorem lookup_failure_changes_nickname_search :
    (∀ usernames, failingStore usernames = Except.error "connection refused")
      ∧ (GetOnlineSess sampleHumanByte sampleStore [alice, bob] "nickname" "Alice" true).map
          Online.Token = ["t1"]
      ∧ (GetOnlineSess sampleHumanByte failingStore [alice, bob] "nickname" "Alice" true).map
          Online.Token = [] :=
  ⟨fun _ => rfl, by decide, by decide⟩

/-- C8, amended: when the text is blank or the category is neither `"nickname"`
nor `"email"`, a failing store lookup does not alter the rest of the query:
whatever the two lookups answer and in whatever order the two calls enumerate
the registry, the two listings hold records of the same sessions (the same
tokens), and these records agree in every field other than Nickname and
Email. -/
theorem GetOnlineSess_lookup_failure (HumanByte : Nat → String) (store failing : Store)
    (reg reg' : List Session) (cate text : String) (sl : Bool)
    (hperm : reg'.Perm reg)
    (hc : TrimSpace text = "" ∨ (cate ≠ "nickname" ∧ cate ≠ "email")) :
    ((GetOnlineSess HumanByte failing reg' cate text sl).map withoutEnrichment).Perm
        ((GetOnlineSess HumanByte store reg cate text sl).map withoutEnrichment)
      ∧ ((GetOnlineSess HumanByte failing reg' cate text sl).map Online.Token).Perm
        ((GetOnlineSess HumanByte store reg cate text sl).map Online.Token) := by
  have hfun : withoutEnrichment ∘ recordOf HumanByte (getLocalUserInfo failing reg')
      = withoutEnrichment ∘ recordOf HumanByte (getLocalUserInfo store reg) := by
    funext v
    exact withoutEnrichment_recordOf HumanByte _ _ v
  have hmain : ((GetOnlineSess HumanByte failing reg' cate text sl).map withoutEnrichment).Perm
      ((GetOnlineSess HumanByte store reg cate text sl).map withoutEnrichment) := by
    refine ((GetOnlineSess_perm HumanByte failing reg' cate text sl).map
      withoutEnrichment).trans ?_
    refine List.Perm.trans ?_
      ((GetOnlineSess_perm HumanByte store reg cate text sl).map withoutEnrichment).symm
    rw [List.map_map, List.map_map, hfun,
      selected_indep (getLocalUserInfo failing reg') (getLocalUserInfo store reg) hc sl]
    exact (hperm.filter _).map _
  refine ⟨hmain, ?_⟩
  have htok : Online.Token ∘ withoutEnrichment = Online.Token := by
    funext r; rfl
  have h := hmain.map Online.Token
  rw [List.map_map, List.map_map, htok] at h
  exact h

/-- C8, an instance: category `"group"`, text `"g1"`; the lookup fails in a call
that enumerates bob, alice and succeeds in a call that enumerates alice, bob. -/
theorem GetOnlineSess_lookup_failure_witness :
    [bob, alice].Perm [alice, bob]
      ∧ ((GetOnlineSess sampleHumanByte failingStore [bob, alice] "group" "g1" true).map
          withoutEnrichment).Perm
        ((GetOnlineSess sampleHumanByte sampleStore [alice, bob] "group" "g1" true).map
          withoutEnrichment)
      ∧ ((GetOnlineSess sampleHumanByte failingStore [bob, alice] "group" "g1" true).map
          Online.Token).Perm
        ((GetOnlineSess sampleHumanByte sampleStore [alice, bob] "group" "g1" true).map
          Online.Token) :=
  ⟨List.Perm.swap alice bob [],
   GetOnlineSess_lookup_failure sampleHumanByte sampleStore failingStore [alice, bob]
     [bob, alice] "group" "g1" true (List.Perm.swap alice bob [])
     (Or.inr ⟨by decide, by decide⟩)⟩

/-- C9: when the batched store lookup fails, `getLocalUserInfo` returns the empty
map, and every record of the listing has empty Nickname and empty Email. -/
theorem getLocalUserInfo_lookup_fails (HumanByte : Nat → String) (store : Store)
    (reg : List Session) (cate text : String) (sl : Bool) (err : String)
    (hfail : store (usernameSet reg) = Except.error err) :
    getLocalUserInfo store reg = []
      ∧ ∀ r ∈ GetOnlineSess HumanByte store reg cate text sl,
          r.Nickname = "" ∧ r.Email = "" := by
  have hmap : getLocalUserInfo store reg = [] := by
    unfold getLocalUserInfo
    simp only [hfail]
    split <;> rfl
  refine ⟨hmap, ?_⟩
  intro r hr
  rw [mem_GetOnlineSess] at hr
  obtain ⟨v, _, _, rfl⟩ := hr
  rw [hmap]
  exact ⟨rfl, rfl⟩

/-- C9, an instance: the failing store on the registry of `alice` and `bob`. -/
theorem getLocalUserInfo_lookup_fails_witness :
    failingStore (usernameSet [alice, bob]) = Except.error "connection refused"
      ∧ getLocalUserInfo failingStore [alice, bob] = []
      ∧ ∀ r ∈ GetOnlineSess sampleHumanByte failingStore [alice, bob] "" "" true,
          r.Nickname = "" ∧ r.Email = "" :=
  ⟨rfl,
   getLocalUserInfo_lookup_fails sampleHumanByte failingStore [alice, bob] "" "" true
     "connection refused" rfl⟩

/-- The example store yields rows of requested user names only. -/
theorem sampleStore_rows_requested (us : List String) (rows : List User)
    (hok : sampleStore us = Except.ok rows) : ∀ u ∈ rows, u.Username ∈ us := by
  intro u hu
  have hrows : rows = [aliceRow].filter (fun u => u.Username ∈ us) :=
    (Except.ok.inj hok).symm
  rw [hrows, List.mem_filter] at hu
  simpa using hu.2

/-- C10, the code at the failing input: the session `aliceRadius` is not of
`AuthType` `"local"`, yet its record carries the Nickname and Email of the
store row `alice`, looked up for the active local session `alice` of the same
user name and read by Username alone. -/
theorem non_local_session_enriched :
    aliceRadius.AuthType ≠ "local"
      ∧ recordOf sampleHumanByte (getLocalUserInfo sampleStore [alice, aliceRadius])
          aliceRadius
        ∈ GetOnlineSess sampleHumanByte sampleStore [alice, aliceRadius] "" "" false
      ∧ (recordOf sampleHumanByte (getLocalUserInfo sampleStore [alice, aliceRadius])
          aliceRadius).Token = aliceRadius.Token
      ∧ (recordOf sampleHumanByte (getLocalUserInfo sampleStore [alice, aliceRadius])
          aliceRadius).Nickname = "Alice A"
      ∧ (recordOf sampleHumanByte (getLocalUserInfo sampleStore [alice, aliceRadius])
          aliceRadius).Email = "a@x.com" := by
  decide

/-! ## Lemmas: the effects of a call -/

theorem foldl_usernameSetRun (reg : List Session) (set : List String) (events : List Event) :
    reg.foldl
        (fun (acc : List String × List Event) v =>
          (if v.IsActive && v.AuthType == "local" then setAdd acc.1 v.Username else acc.1,
            acc.2 ++ [Event.muxLock v.Token, Event.muxUnlock v.Token]))
        (set, events)
      = (reg.foldl
          (fun set v =>
            if v.IsActive && v.AuthType == "local" then setAdd set v.Username else set) set,
         events ++ sessionLocks reg) := by
  induction reg generalizing set events with
  | nil => simp [sessionLocks]
  | cons v vs ih =>
    rw [List.foldl_cons, ih]
    simp [sessionLocks]

theorem usernameSetRun_eq (reg : List Session) :
    usernameSetRun reg = (usernameSet reg, sessionLocks reg) := by
  unfold usernameSetRun usernameSet
  rw [foldl_usernameSetRun]
  simp

/-- The run of `getLocalUserInfo` yields the map of `getLocalUserInfo`, and its
events are the locked pass and the store lookups. -/
theorem getLocalUserInfoRun_eq (store : Store) (reg : List Session) :
    getLocalUserInfoRun store reg
      = (getLocalUserInfo store reg,
         [Event.sessMuxLock] ++ sessionLocks reg ++ [Event.sessMuxUnlock]
           ++ storeLookups reg) := by
  unfold getLocalUserInfoRun getLocalUserInfo storeLookups
  rw [usernameSetRun_eq]
  simp only
  by_cases hlen : (usernameSet reg).length > 0
  · simp only [hlen, if_true]
    cases hs : store (usernameSet reg) <;> rfl
  · simp only [hlen, if_false, List.append_nil]

theorem compareTextRun_some (cate : String) (v : Session) (cs : ConnSession)
    (u : UserExtraInfo) :
    compareTextRun cate v (some cs) u = compareText cate v cs u := by
  simp [compareTextRun, compareText]

theorem standIn_eq (p : Option ConnSession) :
    (if p.isNone then some ConnSession.zero else p) = some (p.getD ConnSession.zero) := by
  cases p <;> rfl

/-- An iteration of the loop does not fault: it yields the records of
`sessStep` and takes and releases the lock of its session. -/
theorem sessStepRun_eq (HumanByte : Nat → String) (m : UserInfoMap) (cate text : String)
    (sl : Bool) (datas : List Online) (v : Session) :
    sessStepRun HumanByte m cate text sl datas v
      = .ok (sessStep HumanByte m cate text sl datas v,
          [Event.muxLock v.Token, Event.muxUnlock v.Token]) := by
  unfold sessStepRun sessStep
  simp only [standIn_eq, compareTextRun_some, deref]
  split
  · rfl
  · split <;> rfl

theorem sessLoopRun_eq (HumanByte : Nat → String) (m : UserInfoMap) (cate text : String)
    (sl : Bool) (reg : List Session) (datas : List Online) (events : List Event) :
    sessLoopRun HumanByte m cate text sl reg datas events
      = .ok (reg.foldl (sessStep HumanByte m cate text sl) datas,
          events ++ sessionLocks reg) := by
  induction reg generalizing datas events with
  | nil => simp [sessLoopRun, sessionLocks]
  | cons v vs ih =>
    simp only [sessLoopRun, sessStepRun_eq, ih, List.foldl_cons]
    simp [sessionLocks]

/-- A call of `GetOnlineSess` does not fault: it returns the records of
`GetOnlineSess`, and its events are `callEvents`. -/
theorem GetOnlineSessRun_eq (HumanByte : Nat → String) (store : Store) (reg : List Session)
    (cate text : String) (sl : Bool) :
    GetOnlineSessRun HumanByte store reg cate text sl
      = .ok (GetOnlineSess HumanByte store reg cate text sl, callEvents reg) := by
  unfold GetOnlineSessRun GetOnlineSess callEvents
  simp only [getLocalUserInfoRun_eq, sessLoopRun_eq, List.append_assoc]

theorem lockRun_append (h : Held) (a b : List Event) :
    lockRun h (a ++ b) = (lockRun h a).bind (fun h' => lockRun h' b) := by
  induction a generalizing h with
  | nil => rfl
  | cons e es ih =>
    simp only [List.cons_append, lockRun]
    cases hs : lockStep h e with
    | none => rfl
    | some h' => exact ih h'

theorem lockRun_sessionLocks (reg : List Session) :
    lockRun { registry := true, sessions := [] } (sessionLocks reg)
      = some { registry := true, sessions := [] } := by
  induction reg with
  | nil => rfl
  | cons v vs ih =>
    have hcons : sessionLocks (v :: vs)
        = [Event.muxLock v.Token, Event.muxUnlock v.Token] ++ sessionLocks vs := by
      simp [sessionLocks]
    rw [hcons, lockRun_append]
    have hpair : lockRun { registry := true, sessions := [] }
        [Event.muxLock v.Token, Event.muxUnlock v.Token]
        = some { registry := true, sessions := [] } := by
      simp [lockRun, lockStep]
    rw [hpair]
    exact ih

theorem lockRun_lockedPass (reg : List Session) :
    lockRun Held.nothing ([Event.sessMuxLock] ++ sessionLocks reg ++ [Event.sessMuxUnlock])
      = some Held.nothing := by
  rw [List.append_assoc, lockRun_append]
  have h1 : lockRun Held.nothing [Event.sessMuxLock]
      = some { registry := true, sessions := [] } := by
    simp [lockRun, lockStep, Held.nothing]
  rw [h1]
  simp only [Option.some_bind]
  rw [lockRun_append, lockRun_sessionLocks]
  simp [lockRun, lockStep, Held.nothing]

theorem lockRun_storeLookups (reg : List Session) :
    lockRun Held.nothing (storeLookups reg) = some Held.nothing := by
  unfold storeLookups
  split
  · simp [lockRun, lockStep, Held.nothing]
  · rfl

/-- The events of a call keep the locking discipline and end with no lock
held. -/
theorem lockRun_callEvents (reg : List Session) :
    lockRun Held.nothing (callEvents reg) = some Held.nothing := by
  have hsplit : callEvents reg
      = ([Event.sessMuxLock] ++ sessionLocks reg ++ [Event.sessMuxUnlock])
        ++ (storeLookups reg
          ++ ([Event.sessMuxLock] ++ sessionLocks reg ++ [Event.sessMuxUnlock])) := by
    simp [callEvents]
  rw [hsplit, lockRun_append, lockRun_lockedPass]
  simp only [Option.some_bind]
  rw [lockRun_append, lockRun_storeLookups]
  simp only [Option.some_bind]
  exact lockRun_lockedPass reg

theorem lockStep_sessions_le (h h' : Held) (e : Event) (hs : lockStep h e = some h') :
    h'.sessions.length ≤ 1 := by
  cases e <;> simp only [lockStep] at hs <;> split at hs <;>
    first
      | (cases hs; simp_all)
      | exact absurd hs (by simp)

/-- When a sequence of events keeps the discipline, so does each of its
beginnings, and at most one session lock is held after it. -/
theorem lockRun_take (l : List Event) (h h' : Held) (hrun : lockRun h l = some h')
    (hle : h.sessions.length ≤ 1) (n : Nat) :
    ∃ h'', lockRun h (l.take n) = some h'' ∧ h''.sessions.length ≤ 1 := by
  induction l generalizing h n with
  | nil => exact ⟨h, by simp [lockRun], hle⟩
  | cons e es ih =>
    cases n with
    | zero => exact ⟨h, by simp [lockRun], hle⟩
    | succ k =>
      simp only [lockRun] at hrun
      cases hs : lockStep h e with
      | none => simp [hs] at hrun
      | some h1 =>
        simp only [hs] at hrun
        obtain ⟨h2, hr2, hl2⟩ := ih h1 hrun (lockStep_sessions_le h h1 e hs) k
        exact ⟨h2, by simp [List.take, lockRun, hs, hr2], hl2⟩

theorem setAdd_nodup (set : List String) (k : String) (h : set.Nodup) :
    (setAdd set k).Nodup := by
  unfold setAdd
  split
  · exact h
  · rename_i hk
    rw [List.nodup_append]
    refine ⟨h, List.nodup_singleton k, ?_⟩
    intro a ha hb
    rw [List.mem_singleton] at hb
    subst hb
    exact hk ha

theorem foldl_usernames_nodup (reg : List Session) (acc : List String) (h : acc.Nodup) :
    (reg.foldl
      (fun set v =>
        if v.IsActive && v.AuthType == "local" then setAdd set v.Username else set)
      acc).Nodup := by
  induction reg generalizing acc with
  | nil => exact h
  | cons v vs ih =>
    rw [List.foldl_cons]
    apply ih
    split
    · exact setAdd_nodup acc v.Username h
    · exact h

/-- The collected user names are distinct. -/
theorem usernameSet_nodup (reg : List Session) : (usernameSet reg).Nodup :=
  foldl_usernames_nodup reg [] List.nodup_nil

theorem mem_mapSet (m : UserInfoMap) (k : String) (x : UserExtraInfo)
    (p : String × UserExtraInfo) (hp : p ∈ mapSet m k x) : p.1 = k ∨ p ∈ m := by
  unfold mapSet at hp
  rw [List.mem_cons] at hp
  rcases hp with rfl | hp
  · exact Or.inl rfl
  · exact Or.inr (List.mem_filter.mp hp).1

theorem mem_foldl_mapSet (users : List User) (acc : UserInfoMap)
    (p : String × UserExtraInfo)
    (hp : p ∈ users.foldl
      (fun m u => mapSet m u.Username { Nickname := u.Nickname, Email := u.Email }) acc) :
    p ∈ acc ∨ ∃ u ∈ users, u.Username = p.1 := by
  induction users generalizing acc with
  | nil => exact Or.inl hp
  | cons u us ih =>
    rw [List.foldl_cons] at hp
    rcases ih _ hp with h | ⟨u', hu', h⟩
    · rcases mem_mapSet _ _ _ _ h with h | h
      · exact Or.inr ⟨u, List.mem_cons_self _ _, h.symm⟩
      · exact Or.inl h
    · exact Or.inr ⟨u', List.mem_cons_of_mem _ hu', h⟩

/-- Every key of the map was collected, when the store yields rows of requested
user names only. -/
theorem key_getLocalUserInfo (store : Store) (reg : List Session)
    (hstore : ∀ us rows, store us = Except.ok rows → ∀ u ∈ rows, u.Username ∈ us)
    (p : String × UserExtraInfo) (hp : p ∈ getLocalUserInfo store reg) :
    p.1 ∈ usernameSet reg := by
  unfold getLocalUserInfo at hp
  simp only at hp
  split at hp
  · split at hp
    · rename_i users hok
      rcases mem_foldl_mapSet users [] p hp with h | ⟨u, hu, h⟩
      · exact absurd h (List.not_mem_nil _)
      · exact h ▸ hstore _ _ hok u hu
    · exact absurd hp (List.not_mem_nil _)
  · exact absurd hp (List.not_mem_nil _)

theorem storeLookup_not_mem_sessionLocks (reg : List Session) (us : List String) :
    Event.storeLookup us ∉ sessionLocks reg := by
  simp [sessionLocks]

theorem storeLookup_mem_run (store : Store) (reg : List Session) (us : List String)
    (h : Event.storeLookup us ∈ (getLocalUserInfoRun store reg).2) : us = usernameSet reg := by
  rw [getLocalUserInfoRun_eq] at h
  simp only [List.mem_append, List.mem_singleton] at h
  rcases h with ((h | h) | h) | h
  · exact absurd h (by simp)
  · exact absurd h (storeLookup_not_mem_sessionLocks reg us)
  · exact absurd h (by simp)
  · unfold storeLookups at h
    split at h
    · simpa using h
    · exact absurd h (List.not_mem_nil _)

/-! ## The batched lookup -/

/-- C11: the list of user names that `getLocalUserInfo` sends to the store has
no duplicates and holds exactly the Usernames of the sessions that are active
and of `AuthType` `"local"`; and when the store yields rows of requested user
names only, every key of the returned map is such a Username. -/
theorem getLocalUserInfo_usernames (store : Store) (reg : List Session) :
    (∀ us, Event.storeLookup us ∈ (getLocalUserInfoRun store reg).2 →
        us.Nodup ∧ ∀ k, k ∈ us ↔
          ∃ w ∈ reg, w.IsActive = true ∧ w.AuthType = "local" ∧ w.Username = k)
      ∧ ((∀ us rows, store us = Except.ok rows → ∀ u ∈ rows, u.Username ∈ us) →
          ∀ p ∈ getLocalUserInfo store reg,
            ∃ w ∈ reg, w.IsActive = true ∧ w.AuthType = "local" ∧ w.Username = p.1) := by
  constructor
  · intro us hus
    rw [storeLookup_mem_run store reg us hus]
    exact ⟨usernameSet_nodup reg, fun k => mem_usernameSet reg k⟩
  · intro hstore p hp
    exact (mem_usernameSet reg p.1).mp (key_getLocalUserInfo store reg hstore p hp)

/-- C11, an instance: on the registry of `alice` and `bob` the lookup sends
`["alice"]`, and the key `"alice"` of the map is the Username of the active
local session `alice`. -/
theorem getLocalUserInfo_usernames_witness :
    Event.storeLookup ["alice"] ∈ (getLocalUserInfoRun sampleStore [alice, bob]).2
      ∧ ("alice", ({ Nickname := "Alice A", Email := "a@x.com" } : UserExtraInfo))
          ∈ getLocalUserInfo sampleStore [alice, bob]
      ∧ (["alice"].Nodup ∧ ∀ k, k ∈ ["alice"] ↔
          ∃ w ∈ [alice, bob], w.IsActive = true ∧ w.AuthType = "local" ∧ w.Username = k)
      ∧ (∃ w ∈ [alice, bob], w.IsActive = true ∧ w.AuthType = "local"
          ∧ w.Username = "alice") :=
  ⟨by decide, by decide,
   (getLocalUserInfo_usernames sampleStore [alice, bob]).1 ["alice"] (by decide),
   (getLocalUserInfo_usernames sampleStore [alice, bob]).2 sampleStore_rows_requested
     ("alice", { Nickname := "Alice A", Email := "a@x.com" }) (by decide)⟩

theorem filter_isStoreLookup_sessionLocks (reg : List Session) :
    (sessionLocks reg).filter Event.isStoreLookup = [] := by
  rw [List.filter_eq_nil_iff]
  intro e he
  simp only [sessionLocks, List.mem_flatMap, List.mem_cons, List.mem_singleton,
    List.not_mem_nil, or_false] at he
  obtain ⟨v, _, rfl | rfl⟩ := he <;> simp [Event.isStoreLookup]

theorem usernameSet_length_pos_iff (reg : List Session) :
    (usernameSet reg).length > 0
      ↔ reg.any (fun v => v.IsActive && v.AuthType == "local") = true := by
  show 0 < (usernameSet reg).length ↔ _
  rw [List.length_pos_iff_exists_mem]
  simp only [mem_usernameSet, List.any_eq_true, Bool.and_eq_true, beq_iff_eq]
  constructor
  · rintro ⟨k, w, hw, ha, hl, _⟩
    exact ⟨w, hw, ha, hl⟩
  · rintro ⟨w, hw, ha, hl⟩
    exact ⟨w.Username, w, hw, ha, hl, rfl⟩

/-- C16: a call of `GetOnlineSess` returns, and among its events there is no
store lookup when no session is both active and of `AuthType` `"local"`, and
exactly one otherwise. -/
theorem GetOnlineSess_store_lookups (HumanByte : Nat → String) (store : Store)
    (reg : List Session) (cate text : String) (sl : Bool) :
    ∃ datas events,
      GetOnlineSessRun HumanByte store reg cate text sl = .ok (datas, events)
        ∧ (events.filter Event.isStoreLookup).length
            = if reg.any (fun v => v.IsActive && v.AuthType == "local") = true then 1 else 0 := by
  refine ⟨_, _, GetOnlineSessRun_eq HumanByte store reg cate text sl, ?_⟩
  simp only [callEvents, List.filter_append, filter_isStoreLookup_sessionLocks,
    List.length_append]
  by_cases h : reg.any (fun v => v.IsActive && v.AuthType == "local") = true
  · have hpos := (usernameSet_length_pos_iff reg).mpr h
    simp [storeLookups, hpos, h, Event.isStoreLookup]
  · have hpos : ¬ (usernameSet reg).length > 0 :=
      fun hp => h ((usernameSet_length_pos_iff reg).mp hp)
    simp [storeLookups, hpos, h, Event.isStoreLookup]

/-! ## Locking -/

/-- C17: a call of `GetOnlineSess` returns, its events keep the locking
discipline of `lockStep` from the first to the last (a session lock is taken
only while the registry lock is held and no other session lock is held, the
store lookup is made while no lock is held), no lock is held at the end, and
after any number of its events at most one session lock is held. -/
theorem GetOnlineSess_locking (HumanByte : Nat → String) (store : Store)
    (reg : List Session) (cate text : String) (sl : Bool) :
    ∃ datas events,
      GetOnlineSessRun HumanByte store reg cate text sl = .ok (datas, events)
        ∧ lockRun Held.nothing events = some Held.nothing
        ∧ ∀ n, ∃ h, lockRun Held.nothing (events.take n) = some h
            ∧ h.sessions.length ≤ 1 := by
  refine ⟨_, _, GetOnlineSessRun_eq HumanByte store reg cate text sl,
    lockRun_callEvents reg, ?_⟩
  intro n
  exact lockRun_take (callEvents reg) Held.nothing Held.nothing (lockRun_callEvents reg)
    (by simp [Held.nothing]) n

/-! ## The record of a session -/

/-- C12: a call of `GetOnlineSess` returns whatever sessions have no binding,
and the record listed for a session without binding has the zero-valued
connection fields (the bandwidth strings are those of the counter 0) and the
session's own Token, Username, Group, MacAddr, UniqueMac and LastLogin. -/
theorem unbound_session_record (HumanByte : Nat → String) (store : Store)
    (reg : List Session) (cate text : String) (sl : Bool) :
    (∃ events, GetOnlineSessRun HumanByte store reg cate text sl
        = .ok (GetOnlineSess HumanByte store reg cate text sl, events))
      ∧ ∀ v ∈ reg, v.CSess = none →
          ∀ r ∈ GetOnlineSess HumanByte store reg cate text sl,
            r = recordOf HumanByte (getLocalUserInfo store reg) v →
            r.Ip = [] ∧ r.RemoteAddr = "" ∧ r.TunName = "" ∧ r.Mtu = 0 ∧ r.Client = ""
              ∧ r.TransportProtocol = "TCP"
              ∧ r.BandwidthUp = HumanByte 0 ++ "/s" ∧ r.BandwidthDown = HumanByte 0 ++ "/s"
              ∧ r.BandwidthUpAll = HumanByte 0 ∧ r.BandwidthDownAll = HumanByte 0
              ∧ r.Token = v.Token ∧ r.Username = v.Username ∧ r.Group = v.Group
              ∧ r.MacAddr = v.MacAddr ∧ r.UniqueMac = v.UniqueMac
              ∧ r.LastLogin = v.LastLogin := by
  refine ⟨⟨_, GetOnlineSessRun_eq HumanByte store reg cate text sl⟩, ?_⟩
  intro v _ hnone r _ hr
  subst hr
  simp [recordOf, mkOnline, hnone, ConnSession.zero, ConnSession.GetDtlsSession]

/-- C12, an instance: the listing of `alice` and the unbound `bob`; bob's
record is listed with an empty Ip and the protocol `"TCP"`. -/
theorem unbound_session_record_witness :
    bob.CSess = none
      ∧ recordOf sampleHumanByte (getLocalUserInfo sampleStore [alice, bob]) bob
          ∈ GetOnlineSess sampleHumanByte sampleStore [alice, bob] "" "" true
      ∧ (recordOf sampleHumanByte (getLocalUserInfo sampleStore [alice, bob]) bob).Ip = []
      ∧ (recordOf sampleHumanByte (getLocalUserInfo sampleStore [alice, bob])
          bob).TransportProtocol = "TCP"
      ∧ (recordOf sampleHumanByte (getLocalUserInfo sampleStore [alice, bob])
          bob).BandwidthUp = "0 B/s"
      ∧ (recordOf sampleHumanByte (getLocalUserInfo sampleStore [alice, bob])
          bob).Token = "t2" :=
  have h := (unbound_session_record sampleHumanByte sampleStore [alice, bob] "" "" true).2
    bob (by decide) (by decide)
    (recordOf sampleHumanByte (getLocalUserInfo sampleStore [alice, bob]) bob)
    (by decide) rfl
  ⟨by decide, by decide, h.1, h.2.2.2.2.2.1, h.2.2.2.2.2.2.1, h.2.2.2.2.2.2.2.2.2.2.1⟩

/-! ## Two enumerations of the registry -/

theorem usernameSet_perm {reg reg' : List Session} (hperm : reg'.Perm reg) :
    (usernameSet reg').Perm (usernameSet reg) := by
  rw [List.perm_ext_iff_of_nodup (usernameSet_nodup reg') (usernameSet_nodup reg)]
  intro k
  rw [mem_usernameSet, mem_usernameSet]
  constructor
  · rintro ⟨w, hw, h⟩; exact ⟨w, hperm.mem_iff.mp hw, h⟩
  · rintro ⟨w, hw, h⟩; exact ⟨w, hperm.mem_iff.mpr hw, h⟩

theorem getLocalUserInfo_of_perm (store : Store) {reg reg' : List Session}
    (hperm : reg'.Perm reg) (hstore : ∀ us us' : List String, us.Perm us' → store us = store us') :
    getLocalUserInfo store reg' = getLocalUserInfo store reg := by
  have hp := usernameSet_perm hperm
  unfold getLocalUserInfo
  simp only [hp.length_eq, hstore _ _ hp]

theorem GetOnlineSess_perm_of_perm (HumanByte : Nat → String) (store : Store)
    {reg reg' : List Session} (cate text : String) (sl : Bool)
    (hperm : reg'.Perm reg) (hstore : ∀ us us' : List String, us.Perm us' → store us = store us') :
    (GetOnlineSess HumanByte store reg' cate text sl).Perm
      (GetOnlineSess HumanByte store reg cate text sl) := by
  refine (GetOnlineSess_perm HumanByte store reg' cate text sl).trans ?_
  refine List.Perm.trans ?_ (GetOnlineSess_perm HumanByte store reg cate text sl).symm
  rw [getLocalUserInfo_of_perm store hperm hstore]
  exact (hperm.filter _).map _

theorem Less_of_not_Less_of_ne {a b : Online} (h : Less b a = false) (hne : a.Ip ≠ b.Ip) :
    Less a b = true := by
  simp only [Less, decide_eq_false_iff_not, not_lt, decide_eq_true_eq] at h ⊢
  have h0 : bytesCompare a.Ip b.Ip ≠ 0 := fun h0 => hne ((bytesCompare_eq_zero_iff _ _).mp h0)
  rw [bytesCompare_swap] at h
  omega

theorem strictly_sorted_of_nodup {l : List Online}
    (hs : l.Pairwise (fun a b => Less b a = false)) (hd : (l.map Online.Ip).Nodup) :
    l.Pairwise (fun a b => Less a b = true) := by
  have hd' : l.Pairwise (fun a b => a.Ip ≠ b.Ip) := List.pairwise_map.mp hd
  exact (hs.and hd').imp (fun h => Less_of_not_Less_of_ne h.1 h.2)

/-- C13, counterexample: `bob` and `carol` have no binding and so the same
(empty) Ip; enumerated as bob, carol the registry is listed in one order,
enumerated as carol, bob in the other. -/
theorem enumeration_order_changes_listing :
    [carol, bob].Perm [bob, carol]
      ∧ (GetOnlineSess sampleHumanByte sampleStore [bob, carol] "" "" true).map Online.Token
          = ["t2", "t3"]
      ∧ (GetOnlineSess sampleHumanByte sampleStore [carol, bob] "" "" true).map Online.Token
          = ["t3", "t2"]
      ∧ GetOnlineSess sampleHumanByte sampleStore [bob, carol] "" "" true
          ≠ GetOnlineSess sampleHumanByte sampleStore [carol, bob] "" "" true :=
  ⟨List.Perm.swap bob carol [], by decide, by decide, by decide⟩

/-- C13, amended: for two enumerations of the same registry and a store whose
answer does not depend on the order of the user names it is sent, the two
listings hold the same records as multisets, and they are the same sequence
when the Ip of the listed records are pairwise distinct. -/
theorem GetOnlineSess_enumeration_order (HumanByte : Nat → String) (store : Store)
    (reg reg' : List Session) (cate text : String) (sl : Bool)
    (hperm : reg'.Perm reg)
    (hstore : ∀ us us' : List String, us.Perm us' → store us = store us') :
    (GetOnlineSess HumanByte store reg' cate text sl).Perm
        (GetOnlineSess HumanByte store reg cate text sl)
      ∧ (((GetOnlineSess HumanByte store reg cate text sl).map Online.Ip).Nodup →
          GetOnlineSess HumanByte store reg' cate text sl
            = GetOnlineSess HumanByte store reg cate text sl) := by
  have hp := GetOnlineSess_perm_of_perm HumanByte store cate text sl hperm hstore
  refine ⟨hp, ?_⟩
  intro hd
  have hd' : ((GetOnlineSess HumanByte store reg' cate text sl).map Online.Ip).Nodup :=
    ((hp.map Online.Ip).nodup_iff).mpr hd
  have hs := strictly_sorted_of_nodup
    (GetOnlineSess_pairwise HumanByte store reg cate text sl) hd
  have hs' := strictly_sorted_of_nodup
    (GetOnlineSess_pairwise HumanByte store reg' cate text sl) hd'
  haveI : IsAntisymm Online (fun a b => Less a b = true) :=
    ⟨fun a b hab hba => by rw [Less_asymm hab] at hba; exact absurd hba (by simp)⟩
  exact List.eq_of_perm_of_sorted hp hs' hs

/-- The answer of the example store does not depend on the order of the user
names. -/
theorem sampleStore_perm (us us' : List String) (h : us.Perm us') :
    sampleStore us = sampleStore us' := by
  unfold sampleStore
  congr 1
  apply List.filter_congr
  intro u _
  simp [h.mem_iff]

/-- C13, an instance: the registry of `alice` and `bob` enumerated in its two
orders gives the same listing. -/
theorem GetOnlineSess_enumeration_order_witness :
    [bob, alice].Perm [alice, bob]
      ∧ ((GetOnlineSess sampleHumanByte sampleStore [alice, bob] "" "" true).map
          Online.Ip).Nodup
      ∧ GetOnlineSess sampleHumanByte sampleStore [bob, alice] "" "" true
          = GetOnlineSess sampleHumanByte sampleStore [alice, bob] "" "" true :=
  ⟨List.Perm.swap alice bob [], by decide,
   (GetOnlineSess_enumeration_order sampleHumanByte sampleStore [alice, bob] [bob, alice]
      "" "" true (List.Perm.swap alice bob []) sampleStore_perm).2 (by decide)⟩

/-! ## Derived fields -/

/-- C14: every record of the listing comes from a session of the registry, and
its TransportProtocol is `"UDP"` exactly when that session has a binding whose
`GetDtlsSession` is not nil, `"TCP"` exactly when not; it is one of the two. -/
theorem TransportProtocol_classification (HumanByte : Nat → String) (store : Store)
    (reg : List Session) (cate text : String) (sl : Bool) (r : Online)
    (hr : r ∈ GetOnlineSess HumanByte store reg cate text sl) :
    ∃ v ∈ reg, r = recordOf HumanByte (getLocalUserInfo store reg) v
      ∧ (r.TransportProtocol = "UDP"
          ↔ ∃ cs, v.CSess = some cs ∧ cs.GetDtlsSession ≠ none)
      ∧ (r.TransportProtocol = "TCP"
          ↔ ¬ ∃ cs, v.CSess = some cs ∧ cs.GetDtlsSession ≠ none)
      ∧ (r.TransportProtocol = "UDP" ∨ r.TransportProtocol = "TCP") := by
  rw [mem_GetOnlineSess] at hr
  obtain ⟨v, hv, _, rfl⟩ := hr
  refine ⟨v, hv, rfl, ?_⟩
  cases hcs : v.CSess with
  | none =>
    simp [recordOf, mkOnline, hcs, ConnSession.zero, ConnSession.GetDtlsSession]
  | some cs =>
    cases hd : cs.dSess with
    | none => simp [recordOf, mkOnline, hcs, ConnSession.GetDtlsSession, hd]
    | some d => simp [recordOf, mkOnline, hcs, ConnSession.GetDtlsSession, hd]

/-- C14, an instance: `dave` has a datagram sub-session and is listed with
`"UDP"`, `alice` has none and is listed with `"TCP"`. -/
theorem TransportProtocol_classification_witness :
    (GetOnlineSess sampleHumanByte sampleStore [alice, dave] "" "" true).map
        (fun r => (r.Token, r.TransportProtocol)) = [("t1", "TCP"), ("t6", "UDP")]
      ∧ ∃ v ∈ [alice, dave],
          recordOf sampleHumanByte (getLocalUserInfo sampleStore [alice, dave]) dave
            = recordOf sampleHumanByte (getLocalUserInfo sampleStore [alice, dave]) v
          ∧ ((recordOf sampleHumanByte (getLocalUserInfo sampleStore [alice, dave])
                dave).TransportProtocol = "UDP"
              ↔ ∃ cs, v.CSess = some cs ∧ cs.GetDtlsSession ≠ none)
          ∧ ((recordOf sampleHumanByte (getLocalUserInfo sampleStore [alice, dave])
                dave).TransportProtocol = "TCP"
              ↔ ¬ ∃ cs, v.CSess = some cs ∧ cs.GetDtlsSession ≠ none)
          ∧ ((recordOf sampleHumanByte (getLocalUserInfo sampleStore [alice, dave])
                dave).TransportProtocol = "UDP"
              ∨ (recordOf sampleHumanByte (getLocalUserInfo sampleStore [alice, dave])
                dave).TransportProtocol = "TCP") :=
  ⟨by decide,
   TransportProtocol_classification sampleHumanByte sampleStore [alice, dave] "" "" true
     (recordOf sampleHumanByte (getLocalUserInfo sampleStore [alice, dave]) dave)
     (by decide)⟩

/-- C15: every record of the listing comes from a session of the registry;
its BandwidthUp and BandwidthDown are the formatter's output for the
current-period counters of the session's binding (the zero stand-in when it has
none) followed by `"/s"`, its BandwidthUpAll and BandwidthDownAll the
formatter's output for the cumulative counters, nothing added. -/
theorem bandwidth_fields (HumanByte : Nat → String) (store : Store)
    (reg : List Session) (cate text : String) (sl : Bool) (r : Online)
    (hr : r ∈ GetOnlineSess HumanByte store reg cate text sl) :
    ∃ v ∈ reg, r = recordOf HumanByte (getLocalUserInfo store reg) v
      ∧ r.BandwidthUp
          = HumanByte (v.CSess.getD ConnSession.zero).BandwidthUpPeriod ++ "/s"
      ∧ r.BandwidthDown
          = HumanByte (v.CSess.getD ConnSession.zero).BandwidthDownPeriod ++ "/s"
      ∧ r.BandwidthUpAll = HumanByte (v.CSess.getD ConnSession.zero).BandwidthUpAll
      ∧ r.BandwidthDownAll = HumanByte (v.CSess.getD ConnSession.zero).BandwidthDownAll := by
  rw [mem_GetOnlineSess] at hr
  obtain ⟨v, hv, _, rfl⟩ := hr
  exact ⟨v, hv, rfl, rfl, rfl, rfl, rfl⟩

/-- C15, an instance: the counters 1500, 2500, 3500000 and 4500000 of `dave`
with the example formatter. -/
theorem bandwidth_fields_witness :
    (GetOnlineSess sampleHumanByte sampleStore [dave] "" "" true).map
        (fun r => (r.BandwidthUp, r.BandwidthDown, r.BandwidthUpAll, r.BandwidthDownAll))
        = [("1500 B/s", "2500 B/s", "3500000 B", "4500000 B")]
      ∧ ∃ v ∈ [dave],
          recordOf sampleHumanByte (getLocalUserInfo sampleStore [dave]) dave
            = recordOf sampleHumanByte (getLocalUserInfo sampleStore [dave]) v
          ∧ (recordOf sampleHumanByte (getLocalUserInfo sampleStore [dave]) dave).BandwidthUp
            = sampleHumanByte (v.CSess.getD ConnSession.zero).BandwidthUpPeriod ++ "/s"
          ∧ (recordOf sampleHumanByte (getLocalUserInfo sampleStore [dave]) dave).BandwidthDown
            = sampleHumanByte (v.CSess.getD ConnSession.zero).BandwidthDownPeriod ++ "/s"
          ∧ (recordOf sampleHumanByte (getLocalUserInfo sampleStore [dave]) dave).BandwidthUpAll
            = sampleHumanByte (v.CSess.getD ConnSession.zero).BandwidthUpAll
          ∧ (recordOf sampleHumanByte (getLocalUserInfo sampleStore [dave])
              dave).BandwidthDownAll
            = sampleHumanByte (v.CSess.getD ConnSession.zero).BandwidthDownAll :=
  ⟨by decide,
   bandwidth_fields sampleHumanByte sampleStore [dave] "" "" true
     (recordOf sampleHumanByte (getLocalUserInfo sampleStore [dave]) dave) (by decide)⟩

/-! ## Behaviour read off the code -/

/-- C18: for a recognized category and a text that is not blank, every record
of the listing comes from a session whose candidate string contains the text
as it was given, white space included: the text is trimmed for the blank test
only. -/
theorem search_text_not_trimmed (HumanByte : Nat → String) (store : Store)
    (reg : List Session) (cate text : String) (sl : Bool)
    (hc : recognized cate) (ht : TrimSpace text ≠ "") (r : Online)
    (hr : r ∈ GetOnlineSess HumanByte store reg cate text sl) :
    ∃ v ∈ reg, r = recordOf HumanByte (getLocalUserInfo store reg) v
      ∧ text.data <:+: (candidate (getLocalUserInfo store reg) cate v).data := by
  rw [mem_GetOnlineSess] at hr
  obtain ⟨v, hv, hs, rfl⟩ := hr
  refine ⟨v, hv, rfl, ?_⟩
  rw [normCate_of_not_blank ht, selected_not_blank _ (recognized_ne_empty hc)] at hs
  rw [← Contains_iff]
  simp only [Bool.and_eq_true] at hs
  exact hs.1

/-- C18, an instance: the text `" g1"` is not blank and differs from its
trimmed form; in category `"group"` it lists nothing although both sessions
have the group `"g1"`; the text `" A"` in category `"nickname"` lists alice,
whose Nickname `"Alice A"` contains it with the blank. -/
theorem search_text_not_trimmed_witness :
    TrimSpace " g1" = "g1"
      ∧ GetOnlineSess sampleHumanByte sampleStore [alice, bob] "group" " g1" true = []
      ∧ (GetOnlineSess sampleHumanByte sampleStore [alice, bob] "group" "g1" true).length = 2
      ∧ ∃ v ∈ [alice, bob],
          recordOf sampleHumanByte (getLocalUserInfo sampleStore [alice, bob]) alice
            = recordOf sampleHumanByte (getLocalUserInfo sampleStore [alice, bob]) v
          ∧ " A".data <:+: (candidate (getLocalUserInfo sampleStore [alice, bob])
              "nickname" v).data :=
  ⟨by decide, by decide, by decide,
   search_text_not_trimmed sampleHumanByte sampleStore [alice, bob] "nickname" " A" true
     (by decide) (by decide)
     (recordOf sampleHumanByte (getLocalUserInfo sampleStore [alice, bob]) alice)
     (by decide)⟩

/-- C19, counterexample: the store compares user names without regard to case
and answers the request of `"alice"`, made for the active local session
`alice`, with the row `Alice`; the sleeping radius session `Alice` is listed
with that row's Nickname although no session named `Alice` is active and of
`AuthType` `"local"`. -/
theorem unrequested_row_enriches_sleeper :
    ∃ r ∈ GetOnlineSess sampleHumanByte caseInsensitiveStore [alice, aliceCapAsleep]
        "" "" true,
      r.Token = "t7" ∧ r.Nickname = "Alice A" ∧ (r.Nickname ≠ "" ∨ r.Email ≠ "")
        ∧ ¬ ∃ w ∈ [alice, aliceCapAsleep],
            w.Username = r.Username ∧ w.IsActive = true ∧ w.AuthType = "local" := by
  decide

/-- The store of alice and erin yields rows of requested user names only. -/
theorem twoRowStore_rows_requested (us : List String) (rows : List User)
    (hok : twoRowStore us = Except.ok rows) : ∀ u ∈ rows, u.Username ∈ us := by
  intro u hu
  have hrows : rows = [aliceRow, erinRow].filter (fun u => u.Username ∈ us) :=
    (Except.ok.inj hok).symm
  rw [hrows, List.mem_filter] at hu
  simpa using hu.2

/-- C19, amended: when the store yields rows of requested user names only, a
record of the listing with sleepers has a Nickname or an Email only if some
session of the registry with the same Username is active and of `AuthType`
`"local"`; and a sleeping session whose Username is that of no active local
session and that passes the search filter is listed with empty Nickname and
Email. -/
theorem enrichment_needs_active_local (HumanByte : Nat → String) (store : Store)
    (reg : List Session) (cate text : String)
    (hstore : ∀ us rows, store us = Except.ok rows → ∀ u ∈ rows, u.Username ∈ us) :
    (∀ r ∈ GetOnlineSess HumanByte store reg cate text true,
        (r.Nickname ≠ "" ∨ r.Email ≠ "") →
        ∃ w ∈ reg, w.Username = r.Username ∧ w.IsActive = true ∧ w.AuthType = "local")
      ∧ (∀ v ∈ reg, v.IsActive = false →
          (∀ w ∈ reg, w.IsActive = true → w.AuthType = "local" → w.Username ≠ v.Username) →
          passesFilter (getLocalUserInfo store reg) (normCate cate text) text v = true →
          recordOf HumanByte (getLocalUserInfo store reg) v
              ∈ GetOnlineSess HumanByte store reg cate text true
            ∧ (recordOf HumanByte (getLocalUserInfo store reg) v).Nickname = ""
            ∧ (recordOf HumanByte (getLocalUserInfo store reg) v).Email = "") := by
  constructor
  · intro r hr hne
    rw [mem_GetOnlineSess] at hr
    obtain ⟨v, _, _, rfl⟩ := hr
    by_cases hk : v.Username ∈ usernameSet reg
    · obtain ⟨w, hw, hact, hloc, hname⟩ := (mem_usernameSet reg v.Username).mp hk
      exact ⟨w, hw, hname, hact, hloc⟩
    · have hget := mapGet_getLocalUserInfo_of_not_mem store reg hstore v.Username hk
      simp [recordOf, mkOnline, hget] at hne
  · intro v hv _ hshare hpass
    have hk : v.Username ∉ usernameSet reg := by
      rw [mem_usernameSet]
      rintro ⟨w, hw, hact, hloc, hname⟩
      exact hshare w hw hact hloc hname
    have hget := mapGet_getLocalUserInfo_of_not_mem store reg hstore v.Username hk
    refine ⟨?_, ?_, ?_⟩
    · rw [mem_GetOnlineSess]
      refine ⟨v, hv, ?_, rfl⟩
      simp [selected, hpass]
    · simp [recordOf, mkOnline, hget]
    · simp [recordOf, mkOnline, hget]

/-- C19, an instance: the store holds the rows of alice and erin and is asked
for `"alice"`, the one active local session; alice's record is enriched, while
the sleeping local session `erinAsleep` is listed with empty Nickname and
Email although the store holds a row for erin. -/
theorem enrichment_needs_active_local_witness :
    Event.storeLookup ["alice"] ∈ (getLocalUserInfoRun twoRowStore [alice, erinAsleep]).2
      ∧ (recordOf sampleHumanByte (getLocalUserInfo twoRowStore [alice, erinAsleep])
          alice).Nickname = "Alice A"
      ∧ (∃ w ∈ [alice, erinAsleep], w.Username
            = (recordOf sampleHumanByte (getLocalUserInfo twoRowStore [alice, erinAsleep])
                alice).Username
          ∧ w.IsActive = true ∧ w.AuthType = "local")
      ∧ (recordOf sampleHumanByte (getLocalUserInfo twoRowStore [alice, erinAsleep])
            erinAsleep
          ∈ GetOnlineSess sampleHumanByte twoRowStore [alice, erinAsleep] "" "" true
        ∧ (recordOf sampleHumanByte (getLocalUserInfo twoRowStore [alice, erinAsleep])
            erinAsleep).Nickname = ""
        ∧ (recordOf sampleHumanByte (getLocalUserInfo twoRowStore [alice, erinAsleep])
            erinAsleep).Email = "") :=
  ⟨by decide, by decide,
   (enrichment_needs_active_local sampleHumanByte twoRowStore [alice, erinAsleep] "" ""
      twoRowStore_rows_requested).1
      (recordOf sampleHumanByte (getLocalUserInfo twoRowStore [alice, erinAsleep]) alice)
      (by decide) (Or.inl (by decide)),
   (enrichment_needs_active_local sampleHumanByte twoRowStore [alice, erinAsleep] "" ""
      twoRowStore_rows_requested).2 erinAsleep (by decide) (by decide) (by decide)
      (by decide)⟩

/-- C20: the listing is a permutation of the records of exactly the sessions
that pass the search filter and the visibility test, one record each; a record
carries its session's Token, Username, Group, MacAddr, UniqueMac and
LastLogin; the listing is no longer than the registry, and its tokens are
pairwise distinct when those of the registry are. -/
theorem GetOnlineSess_permutation (HumanByte : Nat → String) (store : Store)
    (reg : List Session) (cate text : String) (sl : Bool) :
    (GetOnlineSess HumanByte store reg cate text sl).Perm
        ((reg.filter
          (fun v => passesFilter (getLocalUserInfo store reg) (normCate cate text) text v
            && (sl || v.IsActive))).map
          (recordOf HumanByte (getLocalUserInfo store reg)))
      ∧ (∀ (m : UserInfoMap) (v : Session),
          (recordOf HumanByte m v).Token = v.Token
            ∧ (recordOf HumanByte m v).Username = v.Username
            ∧ (recordOf HumanByte m v).Group = v.Group
            ∧ (recordOf HumanByte m v).MacAddr = v.MacAddr
            ∧ (recordOf HumanByte m v).UniqueMac = v.UniqueMac
            ∧ (recordOf HumanByte m v).LastLogin = v.LastLogin)
      ∧ (GetOnlineSess HumanByte store reg cate text sl).length ≤ reg.length
      ∧ ((reg.map Session.Token).Nodup →
          ((GetOnlineSess HumanByte store reg cate text sl).map Online.Token).Nodup) := by
  have hp := GetOnlineSess_perm HumanByte store reg cate text sl
  refine ⟨hp, fun m v => ⟨rfl, rfl, rfl, rfl, rfl, rfl⟩, ?_, ?_⟩
  · rw [hp.length_eq, List.length_map]
    exact List.length_filter_le _ _
  · intro hnd
    rw [((hp.map Online.Token).nodup_iff), List.map_map]
    have htok : Online.Token ∘ recordOf HumanByte (getLocalUserInfo store reg)
        = Session.Token := by
      funext v; rfl
    rw [htok]
    exact hnd.sublist ((List.filter_sublist _).map _)

/-- C20, an instance: the registry of `alice`, `bob` and `dave` has distinct
tokens; so has the listing of its active sessions, which has two records. -/
theorem GetOnlineSess_permutation_witness :
    ([alice, bob, dave].map Session.Token).Nodup
      ∧ (GetOnlineSess sampleHumanByte sampleStore [alice, bob, dave] "" "" false).map
          Online.Token = ["t1", "t6"]
      ∧ ((GetOnlineSess sampleHumanByte sampleStore [alice, bob, dave] "" "" false).map
          Online.Token).Nodup :=
  ⟨by decide, by decide,
   (GetOnlineSess_permutation sampleHumanByte sampleStore [alice, bob, dave] "" ""
      false).2.2.2 (by decide)⟩

end Sessdata
